import Mathlib

/-!
The geometric core of `mouse_funnel.c` (x11-mouse-funnel).

A shallow embedding of the registry rebuild (`update_monitors`), of the
registry lookups (`get_current_monitor`, `get_target_monitor`) and of the body
of the raw-motion branch of `main` (the edge test, the proportional remap and
the safety clamp), followed by theorems about them.

Modelling conventions.

* The global array `monitors` with `monitor_count` entries is a `List Monitor`;
  a `Monitor *` into that array is the pair of its position and the entry it
  points to, so pointer equality is equality of positions.
* The answers of the display server to `update_monitors` are a list of
  `Output` records, read alike by the counting loop and the filling loop.
* `int` fields are `Int`.  The fields are filled from RandR CRTC geometry
  (16-bit quantities on the wire), so sums and differences of coordinates stay
  far inside the `int` range and are taken exactly.  The one product of the
  program, the squared centre distance of `get_target_monitor`, can leave that
  range and is reduced to the 32-bit two's-complement range with `wrap_int32`.
* `double` values are the rationals they denote; every `double` operation is
  the exact operation followed by `f64_round`, rounding to the nearest
  binary64 value with ties to even (overflow to infinity and non-finite raw
  deltas are not modelled; the conversion of an `int` to `double` is exact).
-/

namespace MouseFunnel

/-! ## Data model -/

/-- The `Monitor` struct: origin, extents and the index assigned at rebuild. -/
structure Monitor where
  x : Int
  y : Int
  w : Int
  h : Int
  index : Int
  deriving DecidableEq, Repr

/-- Pixels from edge to trigger warp (`#define EDGE_THRESHOLD 2`). -/
def EDGE_THRESHOLD : Int := 2

/-- The request handed to `XWarpPointer`: the target entry (position in the
registry and its value) and the final coordinate. -/
structure Warp where
  target : Nat
  monitor : Monitor
  new_x : Int
  new_y : Int
  deriving DecidableEq, Repr

/-- The four push directions of the specification. -/
inductive Direction where
  | Left
  | Right
  | Up
  | Down
  deriving DecidableEq, Repr

/-- The `(dx, dy)` pair `main` passes to `get_target_monitor` for a direction. -/
def Direction.args : Direction → Int × Int
  | .Left => (-1, 0)
  | .Right => (1, 0)
  | .Up => (0, -1)
  | .Down => (0, 1)

/-- The qualification test of the specification for a direction. -/
def Direction.qualifies (d : Direction) (current m : Monitor) : Prop :=
  match d with
  | .Left => m.x + m.w ≤ current.x
  | .Right => m.x ≥ current.x + current.w
  | .Up => m.y + m.h ≤ current.y
  | .Down => m.y ≥ current.y + current.h

instance (d : Direction) (current m : Monitor) : Decidable (d.qualifies current m) := by
  cases d <;> unfold Direction.qualifies <;> infer_instance

/-! ## Machine arithmetic -/

/-- Reduction of an integer to the range of a 32-bit two's-complement `int`. -/
def wrap_int32 (z : Int) : Int := (z + 2147483648) % 4294967296 - 2147483648

/-- Number of binary digits of `n`, with `fuel` bounding the recursion. -/
def bit_length_aux : Nat → Nat → Nat
  | 0, _ => 0
  | fuel + 1, n => if n = 0 then 0 else bit_length_aux fuel (n / 2) + 1

/-- Number of binary digits of `n` (zero for `n = 0`). -/
def bit_length (n : Nat) : Nat := bit_length_aux n n

/-- Nearest natural number to `n / d`, ties going to the even neighbour. -/
def round_half_even (n d : Nat) : Nat :=
  let q := n / d
  let r := n % d
  if 2 * r < d then q else if d < 2 * r then q + 1 else if q % 2 = 0 then q else q + 1

/-- Exponent of the last mantissa bit of the binary64 values around the positive
rational `n / d`: the `e` with `2^52 ≤ (n/d) / 2^e < 2^53`, but never below the
subnormal exponent `-1074`. -/
def f64_exponent (n d : Nat) : Int :=
  let k : Int := (bit_length n : Int) - (bit_length d : Int)
  let fl : Int := if d * 2 ^ k.toNat ≤ n * 2 ^ (-k).toNat then k else k - 1
  max (fl - 52) (-1074)

/-- Rounding of the positive rational `n / d` to binary64. -/
def f64_round_pos (n d : Nat) : ℚ :=
  let e := f64_exponent n d
  let m := round_half_even (n * 2 ^ (-e).toNat) (d * 2 ^ e.toNat)
  ((m * 2 ^ e.toNat : Nat) : ℚ) / ((2 ^ (-e).toNat : Nat) : ℚ)

/-- Rounding of a rational to the nearest binary64 value, ties to even. -/
def f64_round (q : ℚ) : ℚ :=
  if q = 0 then 0
  else if 0 < q then f64_round_pos q.num.natAbs q.den
  else - f64_round_pos q.num.natAbs q.den

/-- The conversion `(int)` of a `double`: truncation toward zero. -/
def c_trunc (q : ℚ) : Int := q.num.tdiv q.den

/-- The `double` literal `0.1`. -/
def MOTION_THRESHOLD : ℚ := 3602879701896397 / 36028797018963968

/-! ## Monitor registry -/

/-- The answers of the display server for one entry of `res->outputs`: the
`crtc` and `connection` fields of `XRROutputInfo` and the geometry of
`XRRGetCrtcInfo` for that controller (read only when the output is retained). -/
structure Output where
  crtc : Nat
  connection : Nat
  x : Int
  y : Int
  width : Nat
  height : Nat
  deriving DecidableEq, Repr

/-- The RandR constant `RR_Connected`. -/
def RR_Connected : Nat := 0

/-- The globals `monitors` and `monitor_count`. -/
structure State where
  monitors : List Monitor
  monitor_count : Nat
  deriving DecidableEq, Repr

/-- The first loop of `update_monitors`: the value of `monitor_count` after the
outputs still to visit, entered with the count `c`. -/
def count_pass : List Output → Nat → Nat
  | [], c => c
  | o :: rest, c =>
    if o.crtc ≠ 0 ∧ o.connection = RR_Connected then count_pass rest (c + 1)
    else count_pass rest c

/-- The second loop of `update_monitors`: the entries written from position
`valid_idx` on by the outputs still to visit. -/
def fill_pass : List Output → Nat → List Monitor
  | [], _ => []
  | o :: rest, valid_idx =>
    if o.crtc ≠ 0 ∧ o.connection = RR_Connected then
      ⟨o.x, o.y, (o.width : Int), (o.height : Int), (valid_idx : Int)⟩ ::
        fill_pass rest (valid_idx + 1)
    else fill_pass rest valid_idx

/-- The function `update_monitors`; `res` is the answer of
`XRRGetScreenResourcesCurrent` (`none` for `NULL`), with the per-output answers
the two loops receive. -/
def update_monitors (st : State) (res : Option (List Output)) : State :=
  match res with
  | none => st
  | some outputs => ⟨fill_pass outputs 0, count_pass outputs 0⟩

/-- The entries the loops `for (i = 0; i < monitor_count; i++)` visit. -/
def State.entries (st : State) : List Monitor := st.monitors.take st.monitor_count

/-! ## Locator -/

/-- The loop of `get_current_monitor`, entered at index `i` with the entries
from `i` on still to visit. -/
def current_scan (x y : Int) : List Monitor → Nat → Option (Nat × Monitor)
  | [], _ => none
  | m :: rest, i =>
    if x ≥ m.x ∧ x < m.x + m.w ∧ y ≥ m.y ∧ y < m.y + m.h then some (i, m)
    else current_scan x y rest (i + 1)

/-- The function `get_current_monitor`: first entry containing the point. -/
def get_current_monitor (monitors : List Monitor) (x y : Int) : Option (Nat × Monitor) :=
  current_scan x y monitors 0

/-! ## Neighbour selector -/

/-- The `is_candidate` flag computed in the loop body of `get_target_monitor`. -/
def is_candidate (current m : Monitor) (dx dy : Int) : Bool :=
  if dx < 0 ∧ m.x + m.w ≤ current.x then true
  else if dx > 0 ∧ m.x ≥ current.x + current.w then true
  else if dy < 0 ∧ m.y + m.h ≤ current.y then true
  else if dy > 0 ∧ m.y ≥ current.y + current.h then true
  else false

/-- The exact squared distance between the centres of two rectangles, with the
centres computed as in the source (`x + w / 2`, C integer division). -/
def center_dist_sq (current m : Monitor) : Int :=
  let cx := current.x + current.w.tdiv 2
  let cy := current.y + current.h.tdiv 2
  let mx := m.x + m.w.tdiv 2
  let my := m.y + m.h.tdiv 2
  (cx - mx) * (cx - mx) + (cy - my) * (cy - my)

/-- The value of the `int dist` variable of `get_target_monitor`. -/
def center_dist (current m : Monitor) : Int := wrap_int32 (center_dist_sq current m)

/-- The loop of `get_target_monitor`, entered at index `i` with the entries from
`i` on still to visit and the loop variables `best`, `best_dist`; the result is
the value of both variables at loop exit. -/
def target_scan (cur : Nat) (current : Monitor) (dx dy : Int) :
    List Monitor → Nat → Option (Nat × Monitor) → Int → Option (Nat × Monitor) × Int
  | [], _, best, best_dist => (best, best_dist)
  | m :: rest, i, best, best_dist =>
    if i = cur then target_scan cur current dx dy rest (i + 1) best best_dist
    else if is_candidate current m dx dy then
      if center_dist current m < best_dist then
        target_scan cur current dx dy rest (i + 1) (some (i, m)) (center_dist current m)
      else target_scan cur current dx dy rest (i + 1) best best_dist
    else target_scan cur current dx dy rest (i + 1) best best_dist

/-- The function `get_target_monitor`; `current` is the entry at position `cur`. -/
def get_target_monitor (monitors : List Monitor) (cur : Nat) (current : Monitor)
    (dx dy : Int) : Option (Nat × Monitor) :=
  (target_scan cur current dx dy monitors 0 none 2147483647).1

/-- Selector call for a direction of the specification. -/
def select (monitors : List Monitor) (cur : Nat) (current : Monitor) (d : Direction) :
    Option (Nat × Monitor) :=
  get_target_monitor monitors cur current d.args.1 d.args.2

/-! ## Edge transition engine -/

/-- The expression `(double)(pos - origin) / extent`. -/
def ratio (pos origin extent : Int) : ℚ :=
  f64_round (((pos - origin : Int) : ℚ) / ((extent : Int) : ℚ))

/-- The expression `(int)(ratio * extent)`. -/
def scale (r : ℚ) (extent : Int) : Int :=
  c_trunc (f64_round (r * ((extent : Int) : ℚ)))

/-- The safety clamp followed by the warp request. -/
def clamp_warp (ti : Nat) (target : Monitor) (new_x new_y : Int) : Warp :=
  let new_y := if new_y ≥ target.y + target.h then target.y + target.h - 1 else new_y
  let new_x := if new_x ≥ target.x + target.w then target.x + target.w - 1 else new_x
  ⟨ti, target, new_x, new_y⟩

/-- The edge tests of `main` for a located pointer: the triggered direction, if
any, in the order of the `if`/`else if` chain. -/
def edge_direction (curr : Monitor) (root_x root_y : Int) (dx dy : ℚ) : Option Direction :=
  if dx < -MOTION_THRESHOLD ∧ root_x ≤ curr.x + EDGE_THRESHOLD then some .Left
  else if dx > MOTION_THRESHOLD ∧ root_x ≥ curr.x + curr.w - 1 - EDGE_THRESHOLD then some .Right
  else if dy < -MOTION_THRESHOLD ∧ root_y ≤ curr.y + EDGE_THRESHOLD then some .Up
  else if dy > MOTION_THRESHOLD ∧ root_y ≥ curr.y + curr.h - 1 - EDGE_THRESHOLD then some .Down
  else none

/-- The coordinate assigned in the branch of a direction, before the clamp. -/
def remap (d : Direction) (curr target : Monitor) (root_x root_y : Int) : Int × Int :=
  let x_ratio := ratio root_x curr.x curr.w
  let y_ratio := ratio root_y curr.y curr.h
  match d with
  | .Left => (target.x + target.w - 2, target.y + scale y_ratio target.h)
  | .Right => (target.x + 1, target.y + scale y_ratio target.h)
  | .Up => (target.x + scale x_ratio target.w, target.y + target.h - 2)
  | .Down => (target.x + scale x_ratio target.w, target.y + 1)

/-- The raw-motion branch of the event loop of `main` for one sample: pointer
position `(root_x, root_y)` and raw delta `(dx, dy)`.  The result is the warp
request issued, if any. -/
def motion_step (monitors : List Monitor) (root_x root_y : Int) (dx dy : ℚ) : Option Warp :=
  if dx ≠ 0 ∨ dy ≠ 0 then
    match get_current_monitor monitors root_x root_y with
    | none => none
    | some (ci, curr) =>
      match edge_direction curr root_x root_y dx dy with
      | none => none
      | some d =>
        match get_target_monitor monitors ci curr d.args.1 d.args.2 with
        | none => none
        | some (ti, target) =>
          let p := remap d curr target root_x root_y
          some (clamp_warp ti target p.1 p.2)
  else none


/-! ## Specification-side predicates -/

/-- The half-open box of a rectangle contains the point. -/
def Monitor.contains (m : Monitor) (x y : Int) : Prop :=
  m.x ≤ x ∧ x < m.x + m.w ∧ m.y ≤ y ∧ y < m.y + m.h

instance (m : Monitor) (x y : Int) : Decidable (m.contains x y) := by
  unfold Monitor.contains; infer_instance

/-- The pointer is within `EDGE_THRESHOLD` pixels of the edge `e` of `curr`, as
tested by `main` for that edge. -/
def near_edge (e : Direction) (curr : Monitor) (x y : Int) : Prop :=
  match e with
  | .Left => x ≤ curr.x + EDGE_THRESHOLD
  | .Right => x ≥ curr.x + curr.w - 1 - EDGE_THRESHOLD
  | .Up => y ≤ curr.y + EDGE_THRESHOLD
  | .Down => y ≥ curr.y + curr.h - 1 - EDGE_THRESHOLD

instance (e : Direction) (curr : Monitor) (x y : Int) : Decidable (near_edge e curr x y) := by
  cases e <;> unfold near_edge <;> infer_instance

/-- The delta points away from the edge `e` along the axis of that edge and has
no component on the other axis. -/
def inward (e : Direction) (dx dy : ℚ) : Prop :=
  match e with
  | .Left => dx > 0 ∧ dy = 0
  | .Right => dx < 0 ∧ dy = 0
  | .Up => dy > 0 ∧ dx = 0
  | .Down => dy < 0 ∧ dx = 0

/-- The edge facing `e`. -/
def Direction.opposite : Direction → Direction
  | .Left => .Right
  | .Right => .Left
  | .Up => .Down
  | .Down => .Up

/-- The coordinate on the axis perpendicular to a crossing in direction `d`. -/
def Direction.perp_coord (d : Direction) (x y : Int) : Int :=
  match d with
  | .Left => y
  | .Right => y
  | .Up => x
  | .Down => x

/-- The extent of a rectangle on the axis perpendicular to a crossing in
direction `d`. -/
def Direction.perp_extent (d : Direction) (m : Monitor) : Int :=
  match d with
  | .Left => m.h
  | .Right => m.h
  | .Up => m.w
  | .Down => m.w

/-- The origin of a rectangle on the axis perpendicular to a crossing in
direction `d`. -/
def Direction.perp_origin (d : Direction) (m : Monitor) : Int :=
  match d with
  | .Left => m.y
  | .Right => m.y
  | .Up => m.x
  | .Down => m.x

/-- The output is connected and drives an active display controller. -/
def Output.retained (o : Output) : Bool :=
  decide (o.crtc ≠ 0) && decide (o.connection = RR_Connected)

/-- The branch condition of `main` for the direction `d`: motion beyond the
threshold in the outward sense and the pointer within `EDGE_THRESHOLD` of that
edge. -/
def trigger (d : Direction) (curr : Monitor) (x y : Int) (dx dy : ℚ) : Prop :=
  match d with
  | .Left => dx < -MOTION_THRESHOLD ∧ near_edge .Left curr x y
  | .Right => dx > MOTION_THRESHOLD ∧ near_edge .Right curr x y
  | .Up => dy < -MOTION_THRESHOLD ∧ near_edge .Up curr x y
  | .Down => dy > MOTION_THRESHOLD ∧ near_edge .Down curr x y

instance (d : Direction) (curr : Monitor) (x y : Int) (dx dy : ℚ) :
    Decidable (trigger d curr x y dx dy) := by
  cases d <;> unfold trigger <;> infer_instance

/-- Position of a direction in the priority order Left, Right, Up, Down. -/
def Direction.rank : Direction → Nat
  | .Left => 0
  | .Right => 1
  | .Up => 2
  | .Down => 3

/-- The crossing is along the x axis. -/
def Direction.horizontal : Direction → Bool
  | .Left => true
  | .Right => true
  | .Up => false
  | .Down => false

/-- Rounding of a rational to the nearest integer (halves upward). -/
def round_nearest (q : ℚ) : Int := ⌊q + 1 / 2⌋

/-- The squared Euclidean distance between the exact centres `(x + w/2, y + h/2)`
of two rectangles, without the integer division of the source. -/
def exact_center_dist_sq (current m : Monitor) : ℚ :=
  let cx : ℚ := (current.x : ℚ) + (current.w : ℚ) / 2
  let cy : ℚ := (current.y : ℚ) + (current.h : ℚ) / 2
  let mx : ℚ := (m.x : ℚ) + (m.w : ℚ) / 2
  let my : ℚ := (m.y : ℚ) + (m.h : ℚ) / 2
  (cx - mx) * (cx - mx) + (cy - my) * (cy - my)

/-- The rectangle lies inside the X11 coordinate range. -/
def in_x11_range (m : Monitor) : Prop :=
  0 ≤ m.x ∧ 0 ≤ m.y ∧ 0 < m.w ∧ 0 < m.h ∧ m.x + m.w ≤ 32767 ∧ m.y + m.h ≤ 32767

instance (m : Monitor) : Decidable (in_x11_range m) := by
  unfold in_x11_range; infer_instance

/-- No point lies in the half-open boxes of two different entries. -/
def non_overlapping (monitors : List Monitor) : Prop :=
  ∀ (i j : Nat) (mi mj : Monitor), i < j → monitors[i]? = some mi →
    monitors[j]? = some mj → ∀ x y, ¬ (mi.contains x y ∧ mj.contains x y)

/-! ## Concrete registries -/

/-- Entry 0 with entry 1 directly above it and nothing to its left. -/
def stacked_registry : List Monitor := [⟨0, 100, 100, 100, 0⟩, ⟨0, 0, 100, 100, 1⟩]

/-- An output list: a connected active output, a disconnected one, a connected
output without controller, and a second connected active output. -/
def sample_outputs : List Output :=
  [⟨63, 0, 0, 0, 1920, 1080⟩, ⟨0, 1, 0, 0, 0, 0⟩, ⟨0, 0, 0, 0, 0, 0⟩,
    ⟨64, 0, 1920, 0, 1280, 1024⟩]

/-- A two-monitor registry: `B` to the right of `A`, vertically offset. -/
def scenario_registry : List Monitor :=
  [⟨0, 0, 1000, 1000, 0⟩, ⟨1000, 200, 500, 500, 1⟩]

/-- A registry in which two entries qualify to the right of the first. -/
def row_registry : List Monitor :=
  [⟨0, 0, 1000, 1000, 0⟩, ⟨1000, 200, 500, 500, 1⟩, ⟨1500, 0, 1000, 1000, 2⟩]

/-- A registry whose last entry lies so far right that its squared centre
distance from the first entry, `65533 * 65533`, exceeds the `int` range. -/
def wide_registry : List Monitor :=
  [⟨0, 0, 2, 2, 0⟩, ⟨2, 0, 2, 2, 1⟩, ⟨32767, 0, 65535, 2, 2⟩]

/-- A registry of two rectangles four pixels wide, side by side. -/
def narrow_registry : List Monitor := [⟨0, 0, 4, 4, 0⟩, ⟨4, 0, 4, 4, 1⟩]

/-- A registry whose second entry, left of the first, is one pixel wide. -/
def thin_registry : List Monitor := [⟨1, 0, 10, 10, 0⟩, ⟨0, 0, 1, 10, 1⟩]

/-- A large monitor with a four-pixel-high neighbour to its right. -/
def squat_registry : List Monitor := [⟨0, 0, 1000, 1000, 0⟩, ⟨1000, 0, 500, 4, 1⟩]

/-- Two monitors of equal size, 49 pixels high, side by side. -/
def twin_registry : List Monitor := [⟨0, 0, 100, 49, 0⟩, ⟨100, 0, 100, 49, 1⟩]

/-- A rectangle with a one-pixel-wide neighbour to its right. -/
def sliver_registry : List Monitor := [⟨0, 0, 10, 10, 0⟩, ⟨10, 0, 1, 10, 1⟩]

/-- A rectangle with a one-pixel-high neighbour above it. -/
def flat_registry : List Monitor := [⟨0, 1, 10, 10, 0⟩, ⟨0, 0, 10, 1, 1⟩]

/-- Entry 0 with two entries to its right, the first of odd width 101: its
centre is at `x = 150.5`, which the integer division of the source puts at
`150`. -/
def offset_registry : List Monitor :=
  [⟨0, 0, 100, 100, 0⟩, ⟨100, 0, 101, 100, 1⟩, ⟨100, 102, 40, 40, 2⟩]

/-! ## Locator lemmas -/

theorem current_scan_none (x y : Int) (l : List Monitor) (i : Nat) :
    current_scan x y l i = none ↔ ∀ m ∈ l, ¬ m.contains x y := by
  induction l generalizing i with
  | nil => simp [current_scan]
  | cons m rest ih =>
    unfold current_scan
    by_cases hc : x ≥ m.x ∧ x < m.x + m.w ∧ y ≥ m.y ∧ y < m.y + m.h
    · rw [if_pos hc]
      simp only [List.mem_cons, forall_eq_or_imp, false_iff, not_and, reduceCtorEq]
      intro h
      exact absurd hc h
    · rw [if_neg hc, ih]
      simp only [List.mem_cons, forall_eq_or_imp]
      exact ⟨fun h => ⟨hc, h⟩, fun h => h.2⟩

theorem current_scan_some (x y : Int) (l : List Monitor) (i j : Nat) (r : Monitor) :
    current_scan x y l i = some (j, r) ↔
      ∃ k, j = i + k ∧ l[k]? = some r ∧ r.contains x y ∧
        ∀ k2 m, k2 < k → l[k2]? = some m → ¬ m.contains x y := by
  induction l generalizing i with
  | nil => simp [current_scan]
  | cons m rest ih =>
    unfold current_scan
    by_cases hc : x ≥ m.x ∧ x < m.x + m.w ∧ y ≥ m.y ∧ y < m.y + m.h
    · rw [if_pos hc]
      constructor
      · intro h
        simp only [Option.some.injEq, Prod.mk.injEq] at h
        obtain ⟨rfl, rfl⟩ := h
        exact ⟨0, rfl, by simp, hc, fun k2 _ hk => absurd hk (Nat.not_lt_zero _)⟩
      · rintro ⟨k, hj, hk, _, hfirst⟩
        cases k with
        | zero =>
          simp only [List.getElem?_cons_zero, Option.some.injEq] at hk
          subst hk; subst hj; rfl
        | succ k => exact absurd hc (hfirst 0 m (Nat.succ_pos _) (by simp))
    · rw [if_neg hc, ih]
      constructor
      · rintro ⟨k, hj, hk, hr, hfirst⟩
        refine ⟨k + 1, by omega, by simpa using hk, hr, ?_⟩
        intro k2 m2 hlt hm2
        cases k2 with
        | zero =>
          simp only [List.getElem?_cons_zero, Option.some.injEq] at hm2
          subst hm2; exact hc
        | succ k2 =>
          exact hfirst k2 m2 (by omega) (by simpa using hm2)
      · rintro ⟨k, hj, hk, hr, hfirst⟩
        cases k with
        | zero =>
          simp only [List.getElem?_cons_zero, Option.some.injEq] at hk
          subst hk; exact absurd hr hc
        | succ k =>
          refine ⟨k, by omega, by simpa using hk, hr, ?_⟩
          intro k2 m2 hlt hm2
          exact hfirst (k2 + 1) m2 (by omega) (by simpa using hm2)

theorem get_current_monitor_some (monitors : List Monitor) (x y : Int) (i : Nat)
    (r : Monitor) :
    get_current_monitor monitors x y = some (i, r) ↔
      (monitors[i]? = some r ∧ r.contains x y ∧
        ∀ j m, j < i → monitors[j]? = some m → ¬ m.contains x y) := by
  unfold get_current_monitor
  rw [current_scan_some]
  constructor
  · rintro ⟨k, hj, hk, hr, hfirst⟩
    have : i = k := by omega
    subst this
    exact ⟨hk, hr, hfirst⟩
  · rintro ⟨hk, hr, hfirst⟩
    exact ⟨i, by omega, hk, hr, hfirst⟩

/-! ## Selector lemmas -/

theorem is_candidate_args (d : Direction) (current m : Monitor) :
    is_candidate current m d.args.1 d.args.2 = true ↔ d.qualifies current m := by
  cases d <;> simp [is_candidate, Direction.args, Direction.qualifies]

/-- Invariant of the selector loop: the final `best_dist` bounds the distance of
every candidate visited, and a changed `best` is the first visited candidate
whose distance equals the final `best_dist`. -/
theorem target_scan_spec (cur : Nat) (current : Monitor) (dx dy : Int)
    (l : List Monitor) (i : Nat) (best : Option (Nat × Monitor)) (bd : Int) :
    (∀ k m, l[k]? = some m → i + k ≠ cur → is_candidate current m dx dy = true →
        (target_scan cur current dx dy l i best bd).2 ≤ center_dist current m) ∧
    (target_scan cur current dx dy l i best bd = (best, bd) ∨
      ∃ k m, (target_scan cur current dx dy l i best bd).1 = some (i + k, m) ∧
        l[k]? = some m ∧ i + k ≠ cur ∧ is_candidate current m dx dy = true ∧
        center_dist current m = (target_scan cur current dx dy l i best bd).2 ∧
        (target_scan cur current dx dy l i best bd).2 < bd ∧
        ∀ k2 m2, k2 < k → l[k2]? = some m2 → i + k2 ≠ cur →
          is_candidate current m2 dx dy = true →
          (target_scan cur current dx dy l i best bd).2 < center_dist current m2) := by
  induction l generalizing i best bd with
  | nil =>
    refine ⟨?_, Or.inl rfl⟩
    intro k m hk
    simp at hk
  | cons a rest ih =>
    have hle : ∀ b d, (target_scan cur current dx dy rest (i + 1) b d).2 ≤ d := by
      intro b d
      rcases (ih (i + 1) b d).2 with h | ⟨_, _, _, _, _, _, _, hlt, _⟩
      · rw [h]
      · exact le_of_lt hlt
    -- the three ways the body leaves `best` and `best_dist` untouched share a proof
    have keep : (i = cur ∨ is_candidate current a dx dy = false ∨
          bd ≤ center_dist current a) →
        target_scan cur current dx dy (a :: rest) i best bd =
          target_scan cur current dx dy rest (i + 1) best bd →
        ((∀ k m, (a :: rest)[k]? = some m → i + k ≠ cur →
            is_candidate current m dx dy = true →
            (target_scan cur current dx dy (a :: rest) i best bd).2 ≤ center_dist current m) ∧
        (target_scan cur current dx dy (a :: rest) i best bd = (best, bd) ∨
          ∃ k m, (target_scan cur current dx dy (a :: rest) i best bd).1 = some (i + k, m) ∧
            (a :: rest)[k]? = some m ∧ i + k ≠ cur ∧ is_candidate current m dx dy = true ∧
            center_dist current m = (target_scan cur current dx dy (a :: rest) i best bd).2 ∧
            (target_scan cur current dx dy (a :: rest) i best bd).2 < bd ∧
            ∀ k2 m2, k2 < k → (a :: rest)[k2]? = some m2 → i + k2 ≠ cur →
              is_candidate current m2 dx dy = true →
              (target_scan cur current dx dy (a :: rest) i best bd).2 <
                center_dist current m2)) := by
      intro hskip heq
      rw [heq]
      obtain ⟨hb, hc⟩ := ih (i + 1) best bd
      have hhead : ∀ m, (a :: rest)[0]? = some m → i + 0 ≠ cur →
          is_candidate current m dx dy = true → bd ≤ center_dist current m := by
        intro m hm hne hcand
        simp only [List.getElem?_cons_zero, Option.some.injEq] at hm
        subst hm
        rcases hskip with h | h | h
        · exact absurd h (by simpa using hne)
        · rw [h] at hcand; exact absurd hcand (by simp)
        · exact h
      constructor
      · intro k m hk hne hcand
        cases k with
        | zero => exact le_trans (hle best bd) (hhead m hk hne hcand)
        | succ k =>
          exact hb k m (by simpa using hk) (by omega) hcand
      · rcases hc with h | ⟨k, m, h1, h2, h3, h4, h5, h6, h7⟩
        · exact Or.inl h
        · refine Or.inr ⟨k + 1, m, ?_, by simpa using h2, by omega, h4, h5, h6, ?_⟩
          · rw [h1]; congr 2; omega
          · intro k2 m2 hlt hk2 hne hcand
            cases k2 with
            | zero => exact lt_of_lt_of_le h6 (hhead m2 hk2 hne hcand)
            | succ k2 => exact h7 k2 m2 (by omega) (by simpa using hk2) (by omega) hcand
    by_cases h1 : i = cur
    · exact keep (Or.inl h1) (by rw [target_scan, if_pos h1])
    · by_cases h2 : is_candidate current a dx dy = true
      · by_cases h3 : center_dist current a < bd
        · have heq : target_scan cur current dx dy (a :: rest) i best bd =
              target_scan cur current dx dy rest (i + 1) (some (i, a)) (center_dist current a) := by
            rw [target_scan, if_neg h1, if_pos h2, if_pos h3]
          rw [heq]
          obtain ⟨hb, hc⟩ := ih (i + 1) (some (i, a)) (center_dist current a)
          constructor
          · intro k m hk hne hcand
            cases k with
            | zero =>
              simp only [List.getElem?_cons_zero, Option.some.injEq] at hk
              subst hk
              exact hle _ _
            | succ k => exact hb k m (by simpa using hk) (by omega) hcand
          · right
            rcases hc with h | ⟨k, m, h1x, h2x, h3x, h4x, h5x, h6x, h7x⟩
            · refine ⟨0, a, by rw [h]; rfl, by simp, by simpa using h1, h2, by rw [h], by rw [h]; exact h3, ?_⟩
              intro k2 m2 hlt
              exact absurd hlt (Nat.not_lt_zero _)
            · refine ⟨k + 1, m, ?_, by simpa using h2x, by omega, h4x, h5x, lt_trans h6x h3, ?_⟩
              · rw [h1x]; congr 2; omega
              · intro k2 m2 hlt hk2 hne hcand
                cases k2 with
                | zero =>
                  simp only [List.getElem?_cons_zero, Option.some.injEq] at hk2
                  subst hk2
                  exact h6x
                | succ k2 => exact h7x k2 m2 (by omega) (by simpa using hk2) (by omega) hcand
        · exact keep (Or.inr (Or.inr (not_lt.mp h3)))
            (by rw [target_scan, if_neg h1, if_pos h2, if_neg h3])
      · exact keep (Or.inr (Or.inl (by simpa using h2)))
          (by rw [target_scan, if_neg h1, if_neg h2])

theorem sq_emod_four (a : Int) : a * a % 4 = 0 ∨ a * a % 4 = 1 := by
  rcases Int.even_or_odd' a with ⟨k, hk | hk⟩
  · left
    have : a * a = 4 * (k * k) := by rw [hk]; ring
    rw [this]; simp
  · right
    have : a * a = 4 * (k * k + k) + 1 := by rw [hk]; ring
    rw [this]
    generalize k * k + k = t
    omega

/-- The wrapped distance is never `INT_MAX`: a sum of two squares is not `3`
modulo `4`.  Hence every candidate beats the initial `best_dist`. -/
theorem center_dist_lt_int_max (current m : Monitor) :
    center_dist current m < 2147483647 := by
  unfold center_dist wrap_int32 center_dist_sq
  dsimp only
  generalize current.x + current.w.tdiv 2 - (m.x + m.w.tdiv 2) = a
  generalize current.y + current.h.tdiv 2 - (m.y + m.h.tdiv 2) = b
  have ha := sq_emod_four a
  have hb := sq_emod_four b
  generalize a * a = s at ha ⊢
  generalize b * b = t at hb ⊢
  omega

theorem center_dist_eq_sq (current m : Monitor) (h0 : 0 ≤ center_dist_sq current m)
    (h1 : center_dist_sq current m < 2147483648) :
    center_dist current m = center_dist_sq current m := by
  unfold center_dist wrap_int32
  generalize center_dist_sq current m = s at h0 h1 ⊢
  omega

theorem center_dist_sq_nonneg (current m : Monitor) : 0 ≤ center_dist_sq current m := by
  unfold center_dist_sq
  exact add_nonneg (mul_self_nonneg _) (mul_self_nonneg _)

/-- Signed overflow of `dist`: pushed right from the first entry of
`wide_registry` the selector returns the far entry, although the adjacent entry
qualifies and its centre is nearer (`4 < 4294574089`); the far distance wraps
to `-393207`. -/
theorem dist_overflow_selects_far_entry :
    select wide_registry 0 ⟨0, 0, 2, 2, 0⟩ .Right = some (2, ⟨32767, 0, 65535, 2, 2⟩) ∧
    wide_registry[1]? = some ⟨2, 0, 2, 2, 1⟩ ∧
    Direction.Right.qualifies ⟨0, 0, 2, 2, 0⟩ ⟨2, 0, 2, 2, 1⟩ ∧
    center_dist_sq ⟨0, 0, 2, 2, 0⟩ ⟨2, 0, 2, 2, 1⟩ = 4 ∧
    center_dist_sq ⟨0, 0, 2, 2, 0⟩ ⟨32767, 0, 65535, 2, 2⟩ = 4294574089 ∧
    center_dist ⟨0, 0, 2, 2, 0⟩ ⟨32767, 0, 65535, 2, 2⟩ = -393207 := by
  decide

theorem get_target_monitor_some (monitors : List Monitor) (cur : Nat) (current : Monitor)
    (dx dy : Int) (j : Nat) (m : Monitor)
    (h : get_target_monitor monitors cur current dx dy = some (j, m)) :
    j ≠ cur ∧ monitors[j]? = some m ∧ is_candidate current m dx dy = true ∧
    (∀ k mk, monitors[k]? = some mk → k ≠ cur → is_candidate current mk dx dy = true →
        center_dist current m ≤ center_dist current mk) ∧
    (∀ k mk, k < j → monitors[k]? = some mk → k ≠ cur →
        is_candidate current mk dx dy = true →
        center_dist current m < center_dist current mk) := by
  unfold get_target_monitor at h
  obtain ⟨hb, hc⟩ := target_scan_spec cur current dx dy monitors 0 none 2147483647
  rcases hc with hc | ⟨k, m2, h1, h2, h3, h4, h5, _, h7⟩
  · rw [hc] at h; exact absurd h (by simp)
  · rw [h1] at h
    simp only [Option.some.injEq, Prod.mk.injEq] at h
    obtain ⟨hj, hm⟩ := h
    subst hm
    have hjk : j = k := by omega
    subst hjk
    refine ⟨by omega, h2, h4, ?_, ?_⟩
    · intro k2 mk hk hne hcand
      rw [h5]
      exact hb k2 mk hk (by omega) hcand
    · intro k2 mk hlt hk hne hcand
      rw [h5]
      exact h7 k2 mk hlt hk (by omega) hcand

theorem get_target_monitor_none (monitors : List Monitor) (cur : Nat) (current : Monitor)
    (dx dy : Int) :
    get_target_monitor monitors cur current dx dy = none ↔
      ∀ k m, monitors[k]? = some m → k ≠ cur → is_candidate current m dx dy = false := by
  unfold get_target_monitor
  obtain ⟨hb, hc⟩ := target_scan_spec cur current dx dy monitors 0 none 2147483647
  constructor
  · intro h k m hk hne
    rcases hc with hc | ⟨k2, m2, h1, _⟩
    · by_contra hcand
      have h2 := hb k m hk (by omega) (by simpa using hcand)
      rw [hc] at h2
      have h3 := center_dist_lt_int_max current m
      simp only at h2
      omega
    · rw [h1] at h; exact absurd h (by simp)
  · intro h
    rcases hc with hc | ⟨k2, m2, _, h2, h3, h4, _⟩
    · rw [hc]
    · rw [h k2 m2 h2 (by omega)] at h4
      exact absurd h4 (by simp)

/-! ## Rounding lemmas -/

theorem f64_round_pos_nonneg (n d : Nat) : 0 ≤ f64_round_pos n d := by
  unfold f64_round_pos
  exact div_nonneg (Nat.cast_nonneg _) (Nat.cast_nonneg _)

theorem f64_round_nonneg (q : ℚ) (hq : 0 ≤ q) : 0 ≤ f64_round q := by
  unfold f64_round
  split_ifs with h0 h1
  · exact le_refl _
  · exact f64_round_pos_nonneg _ _
  · exact absurd (lt_of_le_of_ne hq (Ne.symm h0)) h1

theorem c_trunc_eq_floor (q : ℚ) (hq : 0 ≤ q) : c_trunc q = ⌊q⌋ := by
  unfold c_trunc
  rw [Int.tdiv_eq_ediv (Rat.num_nonneg.mpr hq) (Int.ofNat_nonneg _), Rat.floor_def]

theorem c_trunc_nonneg (q : ℚ) (hq : 0 ≤ q) : 0 ≤ c_trunc q := by
  rw [c_trunc_eq_floor q hq]
  exact Int.floor_nonneg.mpr hq

theorem ratio_nonneg (pos origin extent : Int) (h1 : origin ≤ pos) (h2 : 0 ≤ extent) :
    0 ≤ ratio pos origin extent := by
  unfold ratio
  apply f64_round_nonneg
  apply div_nonneg
  · exact_mod_cast sub_nonneg.mpr h1
  · exact_mod_cast h2

theorem scale_nonneg (r : ℚ) (extent : Int) (h1 : 0 ≤ r) (h2 : 0 ≤ extent) :
    0 ≤ scale r extent := by
  unfold scale
  apply c_trunc_nonneg
  apply f64_round_nonneg
  exact mul_nonneg h1 (by exact_mod_cast h2)

theorem bit_length_aux_spec (fuel n : Nat) (hf : n ≤ fuel) (hn : 0 < n) :
    2 ^ (bit_length_aux fuel n - 1) ≤ n ∧ n < 2 ^ bit_length_aux fuel n ∧
      0 < bit_length_aux fuel n := by
  induction fuel generalizing n with
  | zero => omega
  | succ fuel ih =>
    unfold bit_length_aux
    rw [if_neg (by omega)]
    by_cases h2 : n / 2 = 0
    · have h1 : n = 1 := by omega
      subst h1
      cases fuel <;> simp [bit_length_aux]
    · obtain ⟨a, b, c⟩ := ih (n / 2) (by omega) (by omega)
      refine ⟨?_, ?_, by omega⟩
      · have : bit_length_aux fuel (n / 2) + 1 - 1 = (bit_length_aux fuel (n / 2) - 1) + 1 := by
          omega
        rw [this, pow_succ]
        omega
      · rw [pow_succ]
        omega

theorem bit_length_spec (n : Nat) (hn : 0 < n) :
    2 ^ (bit_length n - 1) ≤ n ∧ n < 2 ^ bit_length n ∧ 0 < bit_length n :=
  bit_length_aux_spec n n (le_refl _) hn

theorem round_half_even_spec (n d : Nat) (hd : 0 < d) :
    2 * (round_half_even n d * d) ≤ 2 * n + d ∧ 2 * n ≤ 2 * (round_half_even n d * d) + d := by
  have h1 := Nat.div_add_mod n d
  have h2 := Nat.mod_lt n hd
  unfold round_half_even
  simp only
  generalize n / d = q at h1 ⊢
  generalize n % d = r at h1 h2 ⊢
  have h3 : d * q = q * d := Nat.mul_comm _ _
  have h4 : (q + 1) * d = q * d + d := by ring
  split_ifs <;> (try rw [h4]) <;> omega

theorem two_zpow_split (e : Int) :
    ((2 ^ e.toNat : Nat) : ℚ) / ((2 ^ (-e).toNat : Nat) : ℚ) = (2 : ℚ) ^ e := by
  obtain ⟨j, rfl | rfl⟩ := Int.eq_nat_or_neg e
  · simp
  · simp [zpow_neg]

theorem scaled_quotient (e : Int) (n d : Nat) :
    ((n * 2 ^ (-e).toNat : Nat) : ℚ) / ((d * 2 ^ e.toNat : Nat) : ℚ) =
      ((n : ℚ) / (d : ℚ)) / (2 : ℚ) ^ e := by
  rw [← two_zpow_split e]
  push_cast
  have h1 : ((2 : ℚ) ^ e.toNat) ≠ 0 := by positivity
  have h2 : ((2 : ℚ) ^ (-e).toNat) ≠ 0 := by positivity
  by_cases hd : (d : ℚ) = 0
  · simp [hd]
  · field_simp

theorem pow_cmp_le (k : Int) (n d : Nat) (hd : 0 < d) :
    d * 2 ^ k.toNat ≤ n * 2 ^ (-k).toNat ↔ (2 : ℚ) ^ k ≤ (n : ℚ) / (d : ℚ) := by
  have hd2 : (0 : ℚ) < (d : ℚ) := by exact_mod_cast hd
  rw [← two_zpow_split k, div_le_div_iff₀ (by positivity) hd2]
  constructor
  · intro h
    have : ((d * 2 ^ k.toNat : Nat) : ℚ) ≤ ((n * 2 ^ (-k).toNat : Nat) : ℚ) := by exact_mod_cast h
    push_cast at this ⊢
    linarith
  · intro h
    have : ((d * 2 ^ k.toNat : Nat) : ℚ) ≤ ((n * 2 ^ (-k).toNat : Nat) : ℚ) := by
      push_cast at h ⊢
      linarith
    exact_mod_cast this

/-- The binary exponent chosen by `f64_exponent` brackets the value. -/
theorem floor_log2_bracket (n d : Nat) (hn : 0 < n) (hd : 0 < d) (k fl : Int)
    (hk : k = (bit_length n : Int) - (bit_length d : Int))
    (hfl : fl = if d * 2 ^ k.toNat ≤ n * 2 ^ (-k).toNat then k else k - 1) :
    (2 : ℚ) ^ fl ≤ (n : ℚ) / (d : ℚ) ∧ (n : ℚ) / (d : ℚ) < (2 : ℚ) ^ (fl + 1) := by
  obtain ⟨n1, n2, n3⟩ := bit_length_spec n hn
  obtain ⟨d1, d2, d3⟩ := bit_length_spec d hd
  have hd0 : (0 : ℚ) < (d : ℚ) := by exact_mod_cast hd
  have hn1 : (2 : ℚ) ^ ((bit_length n : Int) - 1) ≤ (n : ℚ) := by
    have : ((2 ^ (bit_length n - 1) : Nat) : ℚ) ≤ (n : ℚ) := by exact_mod_cast n1
    have e : ((bit_length n : Int) - 1) = ((bit_length n - 1 : Nat) : Int) := by omega
    rw [e, zpow_natCast]
    exact_mod_cast this
  have hn2 : (n : ℚ) < (2 : ℚ) ^ (bit_length n : Int) := by
    rw [zpow_natCast]
    exact_mod_cast n2
  have hd1 : (2 : ℚ) ^ ((bit_length d : Int) - 1) ≤ (d : ℚ) := by
    have : ((2 ^ (bit_length d - 1) : Nat) : ℚ) ≤ (d : ℚ) := by exact_mod_cast d1
    have e : ((bit_length d : Int) - 1) = ((bit_length d - 1 : Nat) : Int) := by omega
    rw [e, zpow_natCast]
    exact_mod_cast this
  have hd2 : (d : ℚ) < (2 : ℚ) ^ (bit_length d : Int) := by
    rw [zpow_natCast]
    exact_mod_cast d2
  have two : (2 : ℚ) ≠ 0 := by norm_num
  -- n / d < 2 ^ (k + 1)
  have hup : (n : ℚ) / (d : ℚ) < (2 : ℚ) ^ (k + 1) := by
    rw [div_lt_iff₀ hd0]
    have e : k + 1 = (bit_length n : Int) - ((bit_length d : Int) - 1) := by omega
    rw [e, zpow_sub₀ two]
    have hpos : (0 : ℚ) < (2 : ℚ) ^ ((bit_length d : Int) - 1) := by positivity
    calc (n : ℚ) < (2 : ℚ) ^ (bit_length n : Int) := hn2
      _ = (2 : ℚ) ^ (bit_length n : Int) / (2 : ℚ) ^ ((bit_length d : Int) - 1) *
            (2 : ℚ) ^ ((bit_length d : Int) - 1) := by field_simp
      _ ≤ (2 : ℚ) ^ (bit_length n : Int) / (2 : ℚ) ^ ((bit_length d : Int) - 1) * (d : ℚ) := by
          apply mul_le_mul_of_nonneg_left hd1
          positivity
  -- 2 ^ (k - 1) ≤ n / d
  have hlo : (2 : ℚ) ^ (k - 1) ≤ (n : ℚ) / (d : ℚ) := by
    rw [le_div_iff₀ hd0]
    have e : k - 1 = ((bit_length n : Int) - 1) - (bit_length d : Int) := by omega
    rw [e, zpow_sub₀ two]
    have hpos : (0 : ℚ) < (2 : ℚ) ^ (bit_length d : Int) := by positivity
    calc (2 : ℚ) ^ ((bit_length n : Int) - 1) / (2 : ℚ) ^ (bit_length d : Int) * (d : ℚ)
        ≤ (2 : ℚ) ^ ((bit_length n : Int) - 1) / (2 : ℚ) ^ (bit_length d : Int) *
            (2 : ℚ) ^ (bit_length d : Int) := by
          apply mul_le_mul_of_nonneg_left (le_of_lt hd2)
          positivity
      _ = (2 : ℚ) ^ ((bit_length n : Int) - 1) := by field_simp
      _ ≤ (n : ℚ) := hn1
  by_cases hc : d * 2 ^ k.toNat ≤ n * 2 ^ (-k).toNat
  · rw [if_pos hc] at hfl
    subst hfl
    exact ⟨(pow_cmp_le fl n d hd).mp hc, hup⟩
  · rw [if_neg hc] at hfl
    subst hfl
    refine ⟨hlo, ?_⟩
    have := mt (pow_cmp_le k n d hd).mpr hc
    rw [sub_add_cancel]
    exact not_le.mp this

/-- For a value in the normal range the mantissa has 53 bits: the scaled value
is at least `2^52`. -/
theorem f64_exponent_normal (n d : Nat) (hn : 0 < n) (hd : 0 < d)
    (hq : (2 : ℚ) ^ (-1022 : Int) ≤ (n : ℚ) / (d : ℚ)) :
    (2 : ℚ) ^ (52 : Nat) * (2 : ℚ) ^ (f64_exponent n d) ≤ (n : ℚ) / (d : ℚ) := by
  obtain ⟨h1, h2⟩ := floor_log2_bracket n d hn hd _ _ rfl rfl
  have hlt := lt_of_le_of_lt hq h2
  rw [zpow_lt_zpow_iff_right₀ (by norm_num : (1 : ℚ) < 2)] at hlt
  have he : f64_exponent n d =
      (if d * 2 ^ ((bit_length n : Int) - (bit_length d : Int)).toNat ≤
          n * 2 ^ (-((bit_length n : Int) - (bit_length d : Int))).toNat
        then (bit_length n : Int) - (bit_length d : Int)
        else (bit_length n : Int) - (bit_length d : Int) - 1) - 52 := by
    unfold f64_exponent
    simp only
    omega
  rw [he]
  have two : (2 : ℚ) ≠ 0 := by norm_num
  rw [← zpow_natCast, ← zpow_add₀ two]
  simpa using h1

theorem round_half_even_near (n d : Nat) (hd : 0 < d) :
    |(round_half_even n d : ℚ) - (n : ℚ) / (d : ℚ)| ≤ 1 / 2 := by
  obtain ⟨h1, h2⟩ := round_half_even_spec n d hd
  have hd0 : (0 : ℚ) < (d : ℚ) := by exact_mod_cast hd
  have q1 : 2 * ((round_half_even n d : ℚ) * (d : ℚ)) ≤ 2 * (n : ℚ) + (d : ℚ) := by
    exact_mod_cast h1
  have q2 : 2 * (n : ℚ) ≤ 2 * ((round_half_even n d : ℚ) * (d : ℚ)) + (d : ℚ) := by
    exact_mod_cast h2
  have key : (round_half_even n d : ℚ) - (n : ℚ) / (d : ℚ) =
      ((round_half_even n d : ℚ) * (d : ℚ) - (n : ℚ)) / (d : ℚ) := by
    field_simp
  rw [key, abs_le, le_div_iff₀ hd0, div_le_iff₀ hd0]
  constructor <;> linarith

/-- Relative error of the rounding of a positive value in the normal range. -/
theorem f64_round_pos_rel (n d : Nat) (hn : 0 < n) (hd : 0 < d)
    (hq : (2 : ℚ) ^ (-1022 : Int) ≤ (n : ℚ) / (d : ℚ)) :
    |f64_round_pos n d - (n : ℚ) / (d : ℚ)| ≤ (n : ℚ) / (d : ℚ) / 2 ^ 53 := by
  have hnorm := f64_exponent_normal n d hn hd hq
  have hD : 0 < d * 2 ^ (f64_exponent n d).toNat := by positivity
  have hnear := round_half_even_near (n * 2 ^ (-(f64_exponent n d)).toNat)
    (d * 2 ^ (f64_exponent n d).toNat) hD
  rw [scaled_quotient] at hnear
  have hval : f64_round_pos n d =
      (round_half_even (n * 2 ^ (-(f64_exponent n d)).toNat)
        (d * 2 ^ (f64_exponent n d).toNat) : ℚ) * (2 : ℚ) ^ (f64_exponent n d) := by
    unfold f64_round_pos
    simp only
    rw [← two_zpow_split (f64_exponent n d)]
    push_cast
    ring
  rw [hval]
  generalize (round_half_even (n * 2 ^ (-(f64_exponent n d)).toNat)
        (d * 2 ^ (f64_exponent n d).toNat) : ℚ) = m at hnear ⊢
  have hP : (0 : ℚ) < (2 : ℚ) ^ (f64_exponent n d) := by positivity
  generalize (2 : ℚ) ^ (f64_exponent n d) = P at hnear hnorm hP ⊢
  generalize (n : ℚ) / (d : ℚ) = q at hnear hnorm ⊢
  have key : m * P - q = (m - q / P) * P := by field_simp
  rw [key, abs_mul, abs_of_pos hP]
  have h1 : |m - q / P| * P ≤ 1 / 2 * P := mul_le_mul_of_nonneg_right hnear (le_of_lt hP)
  have h2 : 1 / 2 * P ≤ q / 2 ^ 53 := by
    rw [le_div_iff₀ (by positivity)]
    norm_num at hnorm ⊢
    linarith
  exact le_trans h1 h2

theorem f64_round_rel (q : ℚ) (hq : (2 : ℚ) ^ (-1022 : Int) ≤ q) :
    |f64_round q - q| ≤ q / 2 ^ 53 := by
  have hpos : 0 < q := lt_of_lt_of_le (by positivity) hq
  have hnum : 0 < q.num := Rat.num_pos.mpr hpos
  have hcast : ((q.num.natAbs : Nat) : ℚ) / ((q.den : Nat) : ℚ) = q := by
    have : ((q.num.natAbs : Nat) : ℚ) = ((q.num : Int) : ℚ) := by
      rw [← Int.cast_natCast, Int.natAbs_of_nonneg (le_of_lt hnum)]
    rw [this]
    exact Rat.num_div_den q
  have h := f64_round_pos_rel q.num.natAbs q.den (Int.natAbs_pos.mpr (ne_of_gt hnum))
    q.den_pos (by rw [hcast]; exact hq)
  rw [hcast] at h
  unfold f64_round
  rw [if_neg (ne_of_gt hpos), if_pos hpos]
  exact h


theorem tiny_le : (2 : ℚ) ^ (-1022 : Int) ≤ 1 / 2 ^ 51 := by
  have h : (2 : ℚ) ^ (-1022 : Int) ≤ (2 : ℚ) ^ (-51 : Int) :=
    zpow_le_zpow_right₀ (by norm_num) (by norm_num)
  have e : (2 : ℚ) ^ (-51 : Int) = 1 / 2 ^ 51 := by
    rw [zpow_neg, one_div]
    norm_cast
  rw [← e]
  exact h

/-- The truncated proportional remap brackets the exact quotient: with
`a = pos - origin` in `[0, w)` and `k = (int)(((double)a / w) * h)`,
`k * w ≤ a * h ≤ (k + 1) * w`. -/
theorem scale_ratio_bracket (pos origin w h : Int) (h0 : origin ≤ pos) (h1 : pos < origin + w)
    (hh : 0 < h) (hwh : w * h ≤ 2 ^ 50) :
    scale (ratio pos origin w) h * w ≤ (pos - origin) * h ∧
    (pos - origin) * h ≤ (scale (ratio pos origin w) h + 1) * w := by
  have hw : 0 < w := by omega
  by_cases ha : pos - origin = 0
  · have hr : ratio pos origin w = 0 := by
      unfold ratio
      rw [ha]
      simp [f64_round]
    have hs : scale (ratio pos origin w) h = 0 := by
      rw [hr]
      unfold scale
      simp [f64_round, c_trunc]
    rw [hs, ha]
    omega
  · have hapos : 1 ≤ pos - origin := by omega
    have hW : (0 : ℚ) < (w : ℚ) := by exact_mod_cast hw
    have hH : (1 : ℚ) ≤ (h : ℚ) := by exact_mod_cast hh
    have hA : (1 : ℚ) ≤ ((pos - origin : Int) : ℚ) := by exact_mod_cast hapos
    have hAW : ((pos - origin : Int) : ℚ) < (w : ℚ) := by
      have : pos - origin < w := by omega
      exact_mod_cast this
    have hWH : (w : ℚ) * (h : ℚ) ≤ 2 ^ 50 := by exact_mod_cast hwh
    have hWle : (w : ℚ) ≤ 2 ^ 50 := by nlinarith
    -- first rounding
    have hq1lo : (1 : ℚ) / 2 ^ 50 ≤ ((pos - origin : Int) : ℚ) / (w : ℚ) := by
      rw [div_le_div_iff₀ (by positivity) hW]
      nlinarith
    have hr1 := f64_round_rel (((pos - origin : Int) : ℚ) / (w : ℚ))
      (le_trans tiny_le (le_trans (by norm_num) hq1lo))
    rw [abs_le] at hr1
    -- second rounding
    have hr1lo : (1 : ℚ) / 2 ^ 51 ≤ ratio pos origin w := by
      unfold ratio
      linarith [hr1.1]
    have hq2lo : (1 : ℚ) / 2 ^ 51 ≤ ratio pos origin w * (h : ℚ) := by
      have : (0 : ℚ) ≤ ratio pos origin w := le_trans (by positivity) hr1lo
      nlinarith
    have hr2 := f64_round_rel (ratio pos origin w * (h : ℚ)) (le_trans tiny_le hq2lo)
    rw [abs_le] at hr2
    have hp0 : 0 ≤ f64_round (ratio pos origin w * (h : ℚ)) :=
      f64_round_nonneg _ (le_trans (by positivity) hq2lo)
    have hk : scale (ratio pos origin w) h = ⌊f64_round (ratio pos origin w * (h : ℚ))⌋ := by
      unfold scale
      exact c_trunc_eq_floor _ hp0
    have hfl1 := Int.floor_le (f64_round (ratio pos origin w * (h : ℚ)))
    have hfl2 := Int.lt_floor_add_one (f64_round (ratio pos origin w * (h : ℚ)))
    rw [← hk] at hfl1 hfl2
    generalize scale (ratio pos origin w) h = k at hfl1 hfl2 ⊢
    generalize f64_round (ratio pos origin w * (h : ℚ)) = p at hr2 hfl1 hfl2
    have hrdef : ratio pos origin w = f64_round (((pos - origin : Int) : ℚ) / (w : ℚ)) := rfl
    rw [← hrdef] at hr1
    generalize ratio pos origin w = r at hr1 hr2 hr1lo hq2lo
    -- everything in terms of X = a * h and W
    have hXW : ((pos - origin : Int) : ℚ) / (w : ℚ) * (w : ℚ) = ((pos - origin : Int) : ℚ) := by
      field_simp
    generalize ((pos - origin : Int) : ℚ) / (w : ℚ) = q1 at hr1 hXW hq1lo
    have hX : ((pos - origin : Int) : ℚ) * (h : ℚ) < 2 ^ 50 := by nlinarith
    have hq1pos : 0 < q1 := lt_of_lt_of_le (by positivity) hq1lo
    have hrpos : 0 < r := lt_of_lt_of_le (by positivity) hr1lo
    -- p * W against X
    have up : p * (w : ℚ) ≤ ((pos - origin : Int) : ℚ) * (h : ℚ) * (1 + 3 / 2 ^ 53) := by
      have e1 : p ≤ r * (h : ℚ) * (1 + 1 / 2 ^ 53) := by linarith [hr2.2]
      have e2 : r * (h : ℚ) ≤ q1 * (1 + 1 / 2 ^ 53) * (h : ℚ) := by
        apply mul_le_mul_of_nonneg_right _ (by linarith)
        linarith [hr1.2]
      have e3 : p ≤ q1 * (1 + 1 / 2 ^ 53) * (h : ℚ) * (1 + 1 / 2 ^ 53) :=
        le_trans e1 (mul_le_mul_of_nonneg_right e2 (by norm_num))
      have e4 : p * (w : ℚ) ≤ q1 * (1 + 1 / 2 ^ 53) * (h : ℚ) * (1 + 1 / 2 ^ 53) * (w : ℚ) :=
        mul_le_mul_of_nonneg_right e3 (le_of_lt hW)
      have e5 : q1 * (1 + 1 / 2 ^ 53) * (h : ℚ) * (1 + 1 / 2 ^ 53) * (w : ℚ) =
          q1 * (w : ℚ) * (h : ℚ) * ((1 + 1 / 2 ^ 53) * (1 + 1 / 2 ^ 53)) := by ring
      rw [e5, hXW] at e4
      have hXnn : 0 ≤ ((pos - origin : Int) : ℚ) * (h : ℚ) := by positivity
      have e6 : ((1 : ℚ) + 1 / 2 ^ 53) * (1 + 1 / 2 ^ 53) ≤ 1 + 3 / 2 ^ 53 := by norm_num
      exact le_trans e4 (mul_le_mul_of_nonneg_left e6 hXnn)
    have lo : ((pos - origin : Int) : ℚ) * (h : ℚ) * (1 - 2 / 2 ^ 53) ≤ p * (w : ℚ) := by
      have e1 : r * (h : ℚ) * (1 - 1 / 2 ^ 53) ≤ p := by linarith [hr2.1]
      have e2 : q1 * (1 - 1 / 2 ^ 53) * (h : ℚ) ≤ r * (h : ℚ) := by
        apply mul_le_mul_of_nonneg_right _ (by linarith)
        linarith [hr1.1]
      have e3 : q1 * (1 - 1 / 2 ^ 53) * (h : ℚ) * (1 - 1 / 2 ^ 53) ≤ p :=
        le_trans (mul_le_mul_of_nonneg_right e2 (by norm_num)) e1
      have e4 : q1 * (1 - 1 / 2 ^ 53) * (h : ℚ) * (1 - 1 / 2 ^ 53) * (w : ℚ) ≤ p * (w : ℚ) :=
        mul_le_mul_of_nonneg_right e3 (le_of_lt hW)
      have e5 : q1 * (1 - 1 / 2 ^ 53) * (h : ℚ) * (1 - 1 / 2 ^ 53) * (w : ℚ) =
          q1 * (w : ℚ) * (h : ℚ) * ((1 - 1 / 2 ^ 53) * (1 - 1 / 2 ^ 53)) := by ring
      rw [e5, hXW] at e4
      have hXnn : 0 ≤ ((pos - origin : Int) : ℚ) * (h : ℚ) := by positivity
      have e6 : (1 : ℚ) - 2 / 2 ^ 53 ≤ (1 - 1 / 2 ^ 53) * (1 - 1 / 2 ^ 53) := by norm_num
      exact le_trans (mul_le_mul_of_nonneg_left e6 hXnn) e4
    have hkW1 : (k : ℚ) * (w : ℚ) ≤ p * (w : ℚ) := mul_le_mul_of_nonneg_right hfl1 (le_of_lt hW)
    have hkW2 : p * (w : ℚ) < ((k : ℚ) + 1) * (w : ℚ) := mul_lt_mul_of_pos_right hfl2 hW
    constructor
    · have : (k : ℚ) * (w : ℚ) < ((pos - origin : Int) : ℚ) * (h : ℚ) + 1 := by
        have : ((pos - origin : Int) : ℚ) * (h : ℚ) * (3 / 2 ^ 53) < 1 := by
          norm_num at hX ⊢
          linarith
        linarith
      have hz : k * w < (pos - origin) * h + 1 := by exact_mod_cast this
      omega
    · have : ((pos - origin : Int) : ℚ) * (h : ℚ) - 1 < ((k : ℚ) + 1) * (w : ℚ) := by
        have : ((pos - origin : Int) : ℚ) * (h : ℚ) * (2 / 2 ^ 53) < 1 := by
          norm_num at hX ⊢
          linarith
        linarith
      have hz : (pos - origin) * h - 1 < (k + 1) * w := by exact_mod_cast this
      omega

/-- The proportional remap there and back: a position `a` pixels into an
extent `hA`, mapped onto an extent `hB ≥ hA` and back, returns to `a`, `a - 1`
or `a - 2`, and not to `a - 2` when `hB > hA`. -/
theorem remap_round_trip (y oA hA oB hB : Int) (h0 : oA ≤ y) (h1 : y < oA + hA)
    (hle : hA ≤ hB) (hsize : hA * hB ≤ 2 ^ 50) :
    0 ≤ scale (ratio y oA hA) hB ∧ scale (ratio y oA hA) hB < hB ∧
    scale (ratio (oB + scale (ratio y oA hA) hB) oB hB) hA ≤ y - oA ∧
    y - oA - 2 ≤ scale (ratio (oB + scale (ratio y oA hA) hB) oB hB) hA ∧
    (hA < hB → y - oA - 1 ≤ scale (ratio (oB + scale (ratio y oA hA) hB) oB hB) hA) := by
  have hA0 : 0 < hA := by omega
  have hB0 : 0 < hB := by omega
  obtain ⟨b1, b2⟩ := scale_ratio_bracket y oA hA hB h0 h1 hB0 hsize
  have hk0 : 0 ≤ scale (ratio y oA hA) hB :=
    scale_nonneg _ _ (ratio_nonneg _ _ _ h0 (le_of_lt hA0)) (le_of_lt hB0)
  generalize scale (ratio y oA hA) hB = k at b1 b2 hk0 ⊢
  have hkB : k < hB := by
    by_contra hc
    have : hB ≤ k := not_lt.mp hc
    have ha : y - oA < hA := by omega
    nlinarith
  obtain ⟨c1, c2⟩ := scale_ratio_bracket (oB + k) oB hB hA (by omega) (by omega) hA0
    (by rw [mul_comm]; exact hsize)
  have e : oB + k - oB = k := by ring
  rw [e] at c1 c2
  generalize scale (ratio (oB + k) oB hB) hA = z at c1 c2 ⊢
  generalize y - oA = a at b1 b2 ⊢
  refine ⟨hk0, hkB, ?_, ?_, ?_⟩
  · by_contra hc
    have : a + 1 ≤ z := by omega
    nlinarith
  · by_contra hc
    have : z + 3 ≤ a := by omega
    nlinarith
  · intro hlt
    by_contra hc
    have : z + 2 ≤ a := by omega
    nlinarith

/-! ## Engine lemmas -/

/-- Inversion of `motion_step`: a warp request comes from a located pointer, a
triggered direction and a selected target. -/
theorem motion_step_some (monitors : List Monitor) (root_x root_y : Int) (dx dy : ℚ)
    (w : Warp) :
    motion_step monitors root_x root_y dx dy = some w ↔
      (dx ≠ 0 ∨ dy ≠ 0) ∧ ∃ ci curr d ti target,
        get_current_monitor monitors root_x root_y = some (ci, curr) ∧
        edge_direction curr root_x root_y dx dy = some d ∧
        get_target_monitor monitors ci curr d.args.1 d.args.2 = some (ti, target) ∧
        w = clamp_warp ti target (remap d curr target root_x root_y).1
              (remap d curr target root_x root_y).2 := by
  unfold motion_step
  by_cases hm : dx ≠ 0 ∨ dy ≠ 0
  · rw [if_pos hm]
    cases hc : get_current_monitor monitors root_x root_y with
    | none => simp
    | some p =>
      obtain ⟨ci, curr⟩ := p
      dsimp only
      cases he : edge_direction curr root_x root_y dx dy with
      | none => simp [hm, he]
      | some d =>
        dsimp only
        cases ht : get_target_monitor monitors ci curr d.args.1 d.args.2 with
        | none => simp [hm, he, ht]
        | some q =>
          obtain ⟨ti, target⟩ := q
          simp only [Option.some.injEq, Prod.mk.injEq, hm, true_and]
          constructor
          · intro h
            exact ⟨ci, curr, d, ti, target, ⟨rfl, rfl⟩, he, ht, h.symm⟩
          · rintro ⟨ci2, curr2, d2, ti2, target2, ⟨rfl, rfl⟩, he2, ht2, hw⟩
            rw [he] at he2
            simp only [Option.some.injEq] at he2
            subst he2
            rw [ht] at ht2
            simp only [Option.some.injEq, Prod.mk.injEq] at ht2
            obtain ⟨rfl, rfl⟩ := ht2
            exact hw.symm
  · rw [if_neg hm]
    simp [hm]

theorem clamp_warp_target (ti : Nat) (target : Monitor) (a b : Int) :
    (clamp_warp ti target a b).target = ti ∧ (clamp_warp ti target a b).monitor = target :=
  ⟨rfl, rfl⟩

theorem motion_step_none_of_no_edge (monitors : List Monitor) (root_x root_y : Int)
    (dx dy : ℚ)
    (h : ∀ ci curr, get_current_monitor monitors root_x root_y = some (ci, curr) →
      edge_direction curr root_x root_y dx dy = none) :
    motion_step monitors root_x root_y dx dy = none := by
  cases hs : motion_step monitors root_x root_y dx dy with
  | none => rfl
  | some w =>
    obtain ⟨_, ci, curr, d, _, _, hc, he, _⟩ :=
      (motion_step_some monitors root_x root_y dx dy w).mp hs
    rw [h ci curr hc] at he
    exact absurd he (by simp)

theorem motion_threshold_pos : 0 < MOTION_THRESHOLD := by
  unfold MOTION_THRESHOLD; norm_num

/-! ## Registry lemmas -/

theorem retained_iff (o : Output) :
    o.retained = true ↔ (o.crtc ≠ 0 ∧ o.connection = RR_Connected) := by
  simp [Output.retained]

theorem count_pass_eq (l : List Output) (c v : Nat) :
    count_pass l c = c + (fill_pass l v).length := by
  induction l generalizing c v with
  | nil => simp [count_pass, fill_pass]
  | cons o rest ih =>
    unfold count_pass fill_pass
    by_cases h : o.crtc ≠ 0 ∧ o.connection = RR_Connected
    · rw [if_pos h, if_pos h, ih (c + 1) (v + 1)]
      simp only [List.length_cons]
      omega
    · rw [if_neg h, if_neg h, ih c v]

theorem fill_pass_geometry (l : List Output) (v : Nat) :
    (fill_pass l v).map (fun m => (m.x, m.y, m.w, m.h)) =
      (l.filter Output.retained).map
        (fun o => (o.x, o.y, (o.width : Int), (o.height : Int))) := by
  induction l generalizing v with
  | nil => simp [fill_pass]
  | cons o rest ih =>
    unfold fill_pass
    by_cases h : o.crtc ≠ 0 ∧ o.connection = RR_Connected
    · rw [if_pos h, List.filter_cons_of_pos ((retained_iff o).mpr h)]
      simp only [List.map_cons, ih (v + 1)]
    · rw [if_neg h, List.filter_cons_of_neg (fun hr => h ((retained_iff o).mp hr))]
      exact ih v

theorem fill_pass_index (l : List Output) (v i : Nat) (m : Monitor)
    (h : (fill_pass l v)[i]? = some m) : m.index = ((v + i : Nat) : Int) := by
  induction l generalizing v i with
  | nil => simp [fill_pass] at h
  | cons o rest ih =>
    unfold fill_pass at h
    by_cases hc : o.crtc ≠ 0 ∧ o.connection = RR_Connected
    · rw [if_pos hc] at h
      cases i with
      | zero =>
        simp only [List.getElem?_cons_zero, Option.some.injEq] at h
        subst h
        simp
      | succ i =>
        simp only [List.getElem?_cons_succ] at h
        rw [ih (v + 1) i h]
        congr 1
        omega
    · rw [if_neg hc] at h
      exact ih v i h

theorem update_monitors_entries (st : State) (outputs : List Output) :
    (update_monitors st (some outputs)).entries = fill_pass outputs 0 := by
  unfold State.entries update_monitors
  simp only
  rw [count_pass_eq outputs 0 0]
  simp

/-! ## Crossing lemmas -/

theorem edge_direction_some (curr : Monitor) (x y : Int) (dx dy : ℚ) (d : Direction) :
    edge_direction curr x y dx dy = some d ↔
      (trigger d curr x y dx dy ∧ ∀ e : Direction, e.rank < d.rank → ¬ trigger e curr x y dx dy) := by
  unfold edge_direction
  by_cases h1 : dx < -MOTION_THRESHOLD ∧ x ≤ curr.x + EDGE_THRESHOLD
  · rw [if_pos h1]
    cases d
    · simp only [true_iff]
      exact ⟨h1, fun e he => by cases e <;> simp [Direction.rank] at he⟩
    all_goals
      simp only [Option.some.injEq, reduceCtorEq, false_iff, not_and, not_forall]
      intro _
      exact ⟨.Left, by simp [Direction.rank], by simpa [trigger, near_edge] using h1⟩
  · rw [if_neg h1]
    by_cases h2 : dx > MOTION_THRESHOLD ∧ x ≥ curr.x + curr.w - 1 - EDGE_THRESHOLD
    · rw [if_pos h2]
      cases d
      · simp only [Option.some.injEq, reduceCtorEq, false_iff, not_and]
        intro ht
        exact absurd ht h1
      · simp only [true_iff]
        refine ⟨h2, fun e he => ?_⟩
        cases e <;> simp [Direction.rank] at he
        exact h1
      all_goals
        simp only [Option.some.injEq, reduceCtorEq, false_iff, not_and, not_forall]
        intro _
        exact ⟨.Right, by simp [Direction.rank], by simpa [trigger, near_edge] using h2⟩
    · rw [if_neg h2]
      by_cases h3 : dy < -MOTION_THRESHOLD ∧ y ≤ curr.y + EDGE_THRESHOLD
      · rw [if_pos h3]
        cases d
        · simp only [Option.some.injEq, reduceCtorEq, false_iff, not_and]
          intro ht
          exact absurd ht h1
        · simp only [Option.some.injEq, reduceCtorEq, false_iff, not_and]
          intro ht
          exact absurd ht h2
        · simp only [true_iff]
          refine ⟨h3, fun e he => ?_⟩
          cases e <;> simp [Direction.rank] at he
          · exact h1
          · exact h2
        · simp only [Option.some.injEq, reduceCtorEq, false_iff, not_and, not_forall]
          intro _
          exact ⟨.Up, by simp [Direction.rank], by simpa [trigger, near_edge] using h3⟩
      · rw [if_neg h3]
        by_cases h4 : dy > MOTION_THRESHOLD ∧ y ≥ curr.y + curr.h - 1 - EDGE_THRESHOLD
        · rw [if_pos h4]
          cases d
          · simp only [Option.some.injEq, reduceCtorEq, false_iff, not_and]
            intro ht
            exact absurd ht h1
          · simp only [Option.some.injEq, reduceCtorEq, false_iff, not_and]
            intro ht
            exact absurd ht h2
          · simp only [Option.some.injEq, reduceCtorEq, false_iff, not_and]
            intro ht
            exact absurd ht h3
          · simp only [true_iff]
            refine ⟨h4, fun e he => ?_⟩
            cases e <;> simp [Direction.rank] at he
            · exact h1
            · exact h2
            · exact h3
        · rw [if_neg h4]
          simp only [reduceCtorEq, false_iff, not_and]
          intro ht
          cases d
          · exact absurd ht h1
          · exact absurd ht h2
          · exact absurd ht h3
          · exact absurd ht h4


theorem trigger_nonzero (d : Direction) (curr : Monitor) (x y : Int) (dx dy : ℚ)
    (h : trigger d curr x y dx dy) : dx ≠ 0 ∨ dy ≠ 0 := by
  have hT := motion_threshold_pos
  cases d
  · exact Or.inl (by have := h.1; intro h0; rw [h0] at this; linarith)
  · exact Or.inl (by have := h.1; intro h0; rw [h0] at this; linarith)
  · exact Or.inr (by have := h.1; intro h0; rw [h0] at this; linarith)
  · exact Or.inr (by have := h.1; intro h0; rw [h0] at this; linarith)

/-- The engine on a located pointer with a triggered direction: the outcome is
decided by the selector call for that direction alone. -/
theorem motion_step_of_direction (monitors : List Monitor) (x y : Int) (dx dy : ℚ)
    (ci : Nat) (curr : Monitor) (d : Direction)
    (hloc : get_current_monitor monitors x y = some (ci, curr))
    (hdir : edge_direction curr x y dx dy = some d) :
    motion_step monitors x y dx dy =
      match get_target_monitor monitors ci curr d.args.1 d.args.2 with
      | none => none
      | some (ti, target) =>
        some (clamp_warp ti target (remap d curr target x y).1 (remap d curr target x y).2) := by
  have hnz := trigger_nonzero d curr x y dx dy ((edge_direction_some curr x y dx dy d).mp hdir).1
  unfold motion_step
  rw [if_pos hnz, hloc]
  simp only [hdir]

theorem remap_perp (d : Direction) (curr target : Monitor) (x y : Int) :
    d.perp_coord (remap d curr target x y).1 (remap d curr target x y).2 =
      d.perp_origin target +
        scale (ratio (d.perp_coord x y) (d.perp_origin curr) (d.perp_extent curr))
          (d.perp_extent target) := by
  cases d <;> rfl

theorem clamp_warp_perp (d : Direction) (ti : Nat) (target : Monitor) (a b : Int) :
    d.perp_coord (clamp_warp ti target a b).new_x (clamp_warp ti target a b).new_y =
      if d.perp_coord a b ≥ d.perp_origin target + d.perp_extent target
      then d.perp_origin target + d.perp_extent target - 1 else d.perp_coord a b := by
  cases d <;> rfl

theorem contains_perp (d : Direction) (m : Monitor) (x y : Int) (h : m.contains x y) :
    d.perp_origin m ≤ d.perp_coord x y ∧
      d.perp_coord x y < d.perp_origin m + d.perp_extent m := by
  obtain ⟨h1, h2, h3, h4⟩ := h
  cases d
  · exact ⟨h3, h4⟩
  · exact ⟨h3, h4⟩
  · exact ⟨h1, h2⟩
  · exact ⟨h1, h2⟩

/-- The clamped remap of a pointer inside `curr` lies in a target at least two
pixels wide and high. -/
theorem clamp_remap_inside (d : Direction) (ti : Nat) (curr target : Monitor) (x y : Int)
    (hin : curr.contains x y) (hw : 2 ≤ target.w) (hh : 2 ≤ target.h) :
    target.contains
      (clamp_warp ti target (remap d curr target x y).1 (remap d curr target x y).2).new_x
      (clamp_warp ti target (remap d curr target x y).1 (remap d curr target x y).2).new_y := by
  obtain ⟨hx1, hx2, hy1, hy2⟩ := hin
  have hsx := scale_nonneg (ratio x curr.x curr.w) target.w
    (ratio_nonneg _ _ _ hx1 (by omega)) (by omega)
  have hsy := scale_nonneg (ratio y curr.y curr.h) target.h
    (ratio_nonneg _ _ _ hy1 (by omega)) (by omega)
  unfold Monitor.contains
  simp only [clamp_warp]
  cases d <;> simp only [remap] <;> split_ifs <;> omega

theorem ratio_lt_one (pos origin w : Int) (h0 : origin ≤ pos) (h1 : pos < origin + w)
    (hw : w ≤ 2 ^ 50) : ratio pos origin w < 1 := by
  have hwpos : 0 < w := by omega
  by_cases ha : pos - origin = 0
  · unfold ratio
    rw [ha]
    simp [f64_round]
  · have hapos : 1 ≤ pos - origin := by omega
    have hW : (0 : ℚ) < (w : ℚ) := by exact_mod_cast hwpos
    have hWle : (w : ℚ) ≤ 2 ^ 50 := by exact_mod_cast hw
    have hA : (1 : ℚ) ≤ ((pos - origin : Int) : ℚ) := by exact_mod_cast hapos
    have hAW : ((pos - origin : Int) : ℚ) + 1 ≤ (w : ℚ) := by
      have : pos - origin + 1 ≤ w := by omega
      exact_mod_cast this
    have hq1lo : (1 : ℚ) / 2 ^ 50 ≤ ((pos - origin : Int) : ℚ) / (w : ℚ) := by
      rw [div_le_div_iff₀ (by positivity) hW]
      nlinarith
    have hq1hi : ((pos - origin : Int) : ℚ) / (w : ℚ) ≤ 1 - 1 / 2 ^ 50 := by
      rw [div_le_iff₀ hW]
      have : (1 : ℚ) / 2 ^ 50 * (w : ℚ) ≤ 1 := by
        rw [div_mul_eq_mul_div, div_le_iff₀ (by positivity)]
        linarith
      nlinarith
    have hr := f64_round_rel (((pos - origin : Int) : ℚ) / (w : ℚ))
      (le_trans tiny_le (le_trans (by norm_num) hq1lo))
    rw [abs_le] at hr
    unfold ratio
    have hu : ((pos - origin : Int) : ℚ) / (w : ℚ) / 2 ^ 53 ≤ 1 / 2 ^ 53 := by
      apply div_le_div_of_nonneg_right _ (by positivity)
      linarith [show (0 : ℚ) ≤ 1 / 2 ^ 50 by positivity]
    have : (1 : ℚ) / 2 ^ 53 < 1 / 2 ^ 50 := by norm_num
    linarith [hr.2]


/-- Inversion of a warp for a located pointer with a triggered direction. -/
theorem motion_step_warp_of_direction (monitors : List Monitor) (x y : Int) (dx dy : ℚ)
    (ci : Nat) (curr : Monitor) (d : Direction) (w : Warp)
    (hloc : get_current_monitor monitors x y = some (ci, curr))
    (hdir : edge_direction curr x y dx dy = some d)
    (hstep : motion_step monitors x y dx dy = some w) :
    get_target_monitor monitors ci curr d.args.1 d.args.2 = some (w.target, w.monitor) ∧
    w = clamp_warp w.target w.monitor (remap d curr w.monitor x y).1
          (remap d curr w.monitor x y).2 := by
  rw [motion_step_of_direction monitors x y dx dy ci curr d hloc hdir] at hstep
  cases ht : get_target_monitor monitors ci curr d.args.1 d.args.2 with
  | none => rw [ht] at hstep; exact absurd hstep (by simp)
  | some p =>
    obtain ⟨ti, target⟩ := p
    rw [ht] at hstep
    simp only [Option.some.injEq] at hstep
    subst hstep
    exact ⟨rfl, rfl⟩

/-- The perpendicular offset written by a crossing, against the exact quotient. -/
theorem perp_offset_bracket (d : Direction) (curr target : Monitor) (x y : Int)
    (hin : curr.contains x y) (hpos : 0 < d.perp_extent target)
    (hsize : d.perp_extent curr * d.perp_extent target ≤ 2 ^ 50) :
    scale (ratio (d.perp_coord x y) (d.perp_origin curr) (d.perp_extent curr))
        (d.perp_extent target) =
      ⌊f64_round (ratio (d.perp_coord x y) (d.perp_origin curr) (d.perp_extent curr) *
        ((d.perp_extent target : Int) : ℚ))⌋ ∧
    scale (ratio (d.perp_coord x y) (d.perp_origin curr) (d.perp_extent curr))
        (d.perp_extent target) * d.perp_extent curr ≤
      (d.perp_coord x y - d.perp_origin curr) * d.perp_extent target ∧
    (d.perp_coord x y - d.perp_origin curr) * d.perp_extent target ≤
      (scale (ratio (d.perp_coord x y) (d.perp_origin curr) (d.perp_extent curr))
        (d.perp_extent target) + 1) * d.perp_extent curr := by
  obtain ⟨h0, h1⟩ := contains_perp d curr x y hin
  obtain ⟨b1, b2⟩ := scale_ratio_bracket (d.perp_coord x y) (d.perp_origin curr)
    (d.perp_extent curr) (d.perp_extent target) h0 h1 hpos hsize
  refine ⟨?_, b1, b2⟩
  unfold scale
  apply c_trunc_eq_floor
  apply f64_round_nonneg
  exact mul_nonneg (ratio_nonneg _ _ _ h0 (by omega)) (by exact_mod_cast le_of_lt hpos)

theorem sq_le_of_abs_le (a b : Int) (h1 : -b ≤ a) (h2 : a ≤ b) : a * a ≤ b * b := by
  nlinarith

/-! ## Theorems -/

/-- C1, as stated, fails: every rectangle of `thin_registry` has positive width
and height, and pushed left at `(1, 5)` the engine warps to the one-pixel-wide
entry at `new_x = -1`, left of its origin `0`; likewise in `flat_registry`,
pushed up at `(5, 1)`, it warps to the one-pixel-high entry at `new_y = -1`. -/
theorem warp_inside_target_counterexample :
    ((∀ m ∈ thin_registry, 0 < m.w ∧ 0 < m.h) ∧
      motion_step thin_registry 1 5 (-5) 0 = some ⟨1, ⟨0, 0, 1, 10, 1⟩, -1, 5⟩ ∧
      ¬ ((⟨0, 0, 1, 10, 1⟩ : Monitor).x ≤ (-1 : Int))) ∧
    ((∀ m ∈ flat_registry, 0 < m.w ∧ 0 < m.h) ∧
      motion_step flat_registry 5 1 0 (-5) = some ⟨1, ⟨0, 0, 10, 1, 1⟩, 5, -1⟩ ∧
      ¬ ((⟨0, 0, 10, 1, 1⟩ : Monitor).y ≤ (-1 : Int))) :=
  ⟨⟨by decide, by decide!, by decide⟩, ⟨by decide, by decide!, by decide⟩⟩

/-- C1 (amended): in a registry whose rectangles all have positive width and
height, whenever the engine warps to a target rectangle, the target being at
least 2 wide if the crossing is leftwards and at least 2 high if it is upwards,
the warp coordinate lies in the half-open box of the target. -/
theorem warp_inside_target (monitors : List Monitor) (root_x root_y : Int) (dx dy : ℚ)
    (ci : Nat) (curr : Monitor) (d : Direction) (w : Warp)
    (hreg : ∀ m ∈ monitors, 0 < m.w ∧ 0 < m.h)
    (hloc : get_current_monitor monitors root_x root_y = some (ci, curr))
    (hdir : edge_direction curr root_x root_y dx dy = some d)
    (h : motion_step monitors root_x root_y dx dy = some w)
    (hleft : d = .Left → 2 ≤ w.monitor.w) (hup : d = .Up → 2 ≤ w.monitor.h) :
    w.monitor.x ≤ w.new_x ∧ w.new_x < w.monitor.x + w.monitor.w ∧
    w.monitor.y ≤ w.new_y ∧ w.new_y < w.monitor.y + w.monitor.h := by
  obtain ⟨ht, hwarp⟩ :=
    motion_step_warp_of_direction monitors root_x root_y dx dy ci curr d w hloc hdir h
  obtain ⟨_, hin, _⟩ := (get_current_monitor_some monitors root_x root_y ci curr).mp hloc
  obtain ⟨_, hmem, _⟩ := get_target_monitor_some monitors ci curr _ _ w.target w.monitor ht
  obtain ⟨hpw, hph⟩ := hreg w.monitor (List.getElem?_mem hmem)
  obtain ⟨hx1, hx2, hy1, hy2⟩ := hin
  have hsx := scale_nonneg (ratio root_x curr.x curr.w) w.monitor.w
    (ratio_nonneg _ _ _ hx1 (by omega)) (by omega)
  have hsy := scale_nonneg (ratio root_y curr.y curr.h) w.monitor.h
    (ratio_nonneg _ _ _ hy1 (by omega)) (by omega)
  rw [hwarp]
  simp only [clamp_warp]
  generalize w.monitor = t at hpw hph hsx hsy hleft hup ⊢
  cases d
  · have := hleft rfl
    simp only [remap]; split_ifs <;> omega
  · simp only [remap]; split_ifs <;> omega
  · have := hup rfl
    simp only [remap]; split_ifs <;> omega
  · simp only [remap]; split_ifs <;> omega

/-- C1 (amended), instance: pushed right at `(9, 5)` in `sliver_registry` the
pointer crosses onto the one-pixel-wide entry; the branch writes `new_x = 11`,
outside the entry, and the safety clamp brings the warp to `(10, 5)`, inside
`[10, 11) x [0, 10)`. -/
theorem warp_inside_target_witness :
    motion_step sliver_registry 9 5 5 0 = some ⟨1, ⟨10, 0, 1, 10, 1⟩, 10, 5⟩ ∧
    (remap .Right ⟨0, 0, 10, 10, 0⟩ ⟨10, 0, 1, 10, 1⟩ 9 5).1 = 11 ∧
    ((10 : Int) ≤ 10 ∧ (10 : Int) < 10 + 1 ∧ (0 : Int) ≤ 5 ∧ (5 : Int) < 0 + 10) :=
  ⟨by decide!, by decide!,
    warp_inside_target sliver_registry 9 5 5 0 0 ⟨0, 0, 10, 10, 0⟩ .Right
      ⟨1, ⟨10, 0, 1, 10, 1⟩, 10, 5⟩ (by decide) (by decide) (by decide!) (by decide!)
      (fun h => by cases h) (fun h => by cases h)⟩

/-- C2: for each of the four directions the selector never returns the current
entry, and an entry it returns is a registry entry passing the qualification
test of that direction; consequently the warp target of the engine is a
registry entry different from the one the pointer is located on. -/
theorem select_excludes_current_and_qualifies (monitors : List Monitor) :
    (∀ (cur : Nat) (current : Monitor) (d : Direction) (j : Nat) (m : Monitor),
      select monitors cur current d = some (j, m) →
        j ≠ cur ∧ monitors[j]? = some m ∧ d.qualifies current m) ∧
    (∀ (root_x root_y : Int) (dx dy : ℚ) (w : Warp),
      motion_step monitors root_x root_y dx dy = some w →
        ∃ ci curr, get_current_monitor monitors root_x root_y = some (ci, curr) ∧
          w.target ≠ ci ∧ monitors[w.target]? = some w.monitor) := by
  constructor
  · intro cur current d j m h
    obtain ⟨h1, h2, h3, _⟩ := get_target_monitor_some monitors cur current _ _ j m h
    exact ⟨h1, h2, (is_candidate_args d current m).mp h3⟩
  · intro root_x root_y dx dy w h
    obtain ⟨_, ci, curr, d, ti, target, hc, _, ht, hw⟩ :=
      (motion_step_some monitors root_x root_y dx dy w).mp h
    obtain ⟨h1, h2, _⟩ := get_target_monitor_some monitors ci curr _ _ ti target ht
    refine ⟨ci, curr, hc, ?_, ?_⟩
    · rw [hw]; exact h1
    · rw [hw]; exact h2

/-- C2, instance: in the two-monitor scenario the selector called for Right on
`A` returns `B`, entry 1, which is not `A` and lies right of it; and the engine
pushed right at `(998, 900)`, where the pointer is located on entry 0, warps to
entry 1. -/
theorem select_excludes_current_and_qualifies_witness :
    select scenario_registry 0 ⟨0, 0, 1000, 1000, 0⟩ .Right =
        some (1, ⟨1000, 200, 500, 500, 1⟩) ∧
    (1 ≠ 0 ∧ scenario_registry[1]? = some ⟨1000, 200, 500, 500, 1⟩ ∧
      Direction.Right.qualifies ⟨0, 0, 1000, 1000, 0⟩ ⟨1000, 200, 500, 500, 1⟩) ∧
    (∃ ci curr, get_current_monitor scenario_registry 998 900 = some (ci, curr) ∧
      1 ≠ ci ∧ scenario_registry[1]? = some ⟨1000, 200, 500, 500, 1⟩) :=
  ⟨by decide,
    (select_excludes_current_and_qualifies scenario_registry).1 0
      ⟨0, 0, 1000, 1000, 0⟩ .Right 1 ⟨1000, 200, 500, 500, 1⟩ (by decide),
    (select_excludes_current_and_qualifies scenario_registry).2 998 900 5 0
      ⟨1, ⟨1000, 200, 500, 500, 1⟩, 1001, 650⟩ (by decide!)⟩

/-- C3, as stated, fails: all rectangles of `offset_registry` lie in the X11
range; pushed right from entry 0 the selector returns entry 1, although entry 2
qualifies and the squared distance between exact centres is smaller for entry 2
(`10084 < 10100.25`).  The source takes the centre of entry 1 at `x = 150`
instead of `150.5` and so computes `10000 < 10084`. -/
theorem select_exact_centre_counterexample :
    (∀ m ∈ offset_registry, in_x11_range m) ∧
    select offset_registry 0 ⟨0, 0, 100, 100, 0⟩ .Right =
      some (1, ⟨100, 0, 101, 100, 1⟩) ∧
    offset_registry[2]? = some ⟨100, 102, 40, 40, 2⟩ ∧
    Direction.Right.qualifies ⟨0, 0, 100, 100, 0⟩ ⟨100, 102, 40, 40, 2⟩ ∧
    exact_center_dist_sq ⟨0, 0, 100, 100, 0⟩ ⟨100, 102, 40, 40, 2⟩ = 10084 ∧
    exact_center_dist_sq ⟨0, 0, 100, 100, 0⟩ ⟨100, 0, 101, 100, 1⟩ = 40401 / 4 ∧
    exact_center_dist_sq ⟨0, 0, 100, 100, 0⟩ ⟨100, 102, 40, 40, 2⟩ <
      exact_center_dist_sq ⟨0, 0, 100, 100, 0⟩ ⟨100, 0, 101, 100, 1⟩ ∧
    center_dist ⟨0, 0, 100, 100, 0⟩ ⟨100, 0, 101, 100, 1⟩ = 10000 ∧
    center_dist ⟨0, 0, 100, 100, 0⟩ ⟨100, 102, 40, 40, 2⟩ = 10084 := by
  refine ⟨by decide, by decide, by decide, by decide, ?_, ?_, ?_, by decide, by decide⟩
  · norm_num [exact_center_dist_sq]
  · norm_num [exact_center_dist_sq]
  · norm_num [exact_center_dist_sq]

/-- C3 (amended): with the centres taken as `x + w / 2`, `y + h / 2` in integer
division, as the source computes them, and as long as the squared centre
distance of every qualifying candidate fits the 32-bit `int` (signed overflow
of `dist` is left out of this statement), the entry the selector returns has
the minimal squared distance between centres among all qualifying candidates,
and every qualifying candidate before it in enumeration order is strictly
farther. -/
theorem select_minimizes_center_distance (monitors : List Monitor) (cur : Nat)
    (current : Monitor) (d : Direction) (j : Nat) (m : Monitor)
    (hsel : select monitors cur current d = some (j, m))
    (hfit : ∀ k mk, monitors[k]? = some mk → k ≠ cur → d.qualifies current mk →
      center_dist_sq current mk < 2147483648) :
    (∀ k mk, monitors[k]? = some mk → k ≠ cur → d.qualifies current mk →
      center_dist_sq current m ≤ center_dist_sq current mk) ∧
    (∀ k mk, k < j → monitors[k]? = some mk → k ≠ cur → d.qualifies current mk →
      center_dist_sq current m < center_dist_sq current mk) := by
  obtain ⟨h1, h2, h3, h4, h5⟩ := get_target_monitor_some monitors cur current _ _ j m hsel
  have hq := (is_candidate_args d current m).mp h3
  have hm := center_dist_eq_sq current m (center_dist_sq_nonneg _ _) (hfit j m h2 h1 hq)
  constructor
  · intro k mk hk hne hqk
    have := h4 k mk hk hne ((is_candidate_args d current mk).mpr hqk)
    rw [hm, center_dist_eq_sq current mk (center_dist_sq_nonneg _ _) (hfit k mk hk hne hqk)] at this
    exact this
  · intro k mk hlt hk hne hqk
    have := h5 k mk hlt hk hne ((is_candidate_args d current mk).mpr hqk)
    rw [hm, center_dist_eq_sq current mk (center_dist_sq_nonneg _ _) (hfit k mk hk hne hqk)] at this
    exact this

/-- C3 (amended), instance: pushed right from the first entry of `row_registry`
the selector returns entry 1, whose squared centre distance `565000` is below
the `2250000` of entry 2. -/
theorem select_minimizes_center_distance_witness :
    select row_registry 0 ⟨0, 0, 1000, 1000, 0⟩ .Right =
        some (1, ⟨1000, 200, 500, 500, 1⟩) ∧
    center_dist_sq ⟨0, 0, 1000, 1000, 0⟩ ⟨1000, 200, 500, 500, 1⟩ = 565000 ∧
    center_dist_sq ⟨0, 0, 1000, 1000, 0⟩ ⟨1500, 0, 1000, 1000, 2⟩ = 2250000 ∧
    ((∀ k mk, row_registry[k]? = some mk → k ≠ 0 →
        Direction.Right.qualifies ⟨0, 0, 1000, 1000, 0⟩ mk →
        center_dist_sq ⟨0, 0, 1000, 1000, 0⟩ ⟨1000, 200, 500, 500, 1⟩ ≤
          center_dist_sq ⟨0, 0, 1000, 1000, 0⟩ mk) ∧
      (∀ k mk, k < 1 → row_registry[k]? = some mk → k ≠ 0 →
        Direction.Right.qualifies ⟨0, 0, 1000, 1000, 0⟩ mk →
        center_dist_sq ⟨0, 0, 1000, 1000, 0⟩ ⟨1000, 200, 500, 500, 1⟩ <
          center_dist_sq ⟨0, 0, 1000, 1000, 0⟩ mk)) :=
  ⟨by decide, by decide, by decide,
    select_minimizes_center_distance row_registry 0 ⟨0, 0, 1000, 1000, 0⟩ .Right 1
      ⟨1000, 200, 500, 500, 1⟩ (by decide) (by
        intro k mk hk _ _
        match k, hk with
        | 0, hk =>
          simp only [row_registry, List.getElem?_cons_zero, Option.some.injEq] at hk
          subst hk; decide
        | 1, hk =>
          simp only [row_registry, List.getElem?_cons_succ, List.getElem?_cons_zero,
            Option.some.injEq] at hk
          subst hk; decide
        | 2, hk =>
          simp only [row_registry, List.getElem?_cons_succ, List.getElem?_cons_zero,
            Option.some.injEq] at hk
          subst hk; decide
        | k + 3, hk => simp [row_registry] at hk)⟩

/-- C4: `get_current_monitor` returns the first registry entry, in enumeration
order, whose half-open box contains the point; it returns none exactly when no
entry contains the point; and a point contained in exactly one entry is located
on that entry. -/
theorem get_current_monitor_first_match (monitors : List Monitor) (x y : Int) :
    (∀ i r, get_current_monitor monitors x y = some (i, r) ↔
        (monitors[i]? = some r ∧ r.contains x y ∧
          ∀ j m, j < i → monitors[j]? = some m → ¬ m.contains x y)) ∧
    (get_current_monitor monitors x y = none ↔ ∀ m ∈ monitors, ¬ m.contains x y) ∧
    (∀ i r, monitors[i]? = some r → r.contains x y →
        (∀ j m, monitors[j]? = some m → m.contains x y → j = i) →
        get_current_monitor monitors x y = some (i, r)) := by
  have hsome := get_current_monitor_some monitors x y
  refine ⟨hsome, current_scan_none x y monitors 0, ?_⟩
  intro i r hi hr huniq
  rw [hsome]
  refine ⟨hi, hr, ?_⟩
  intro j m hlt hj hm
  have := huniq j m hj hm
  omega

/-- C5: in the two-monitor scenario, with the pointer at `(998, 900)` and the
delta `(+5, 0)`, the engine warps, the target is `B` and the coordinate is
exactly `(1001, 650)`. -/
theorem scenario_warp :
    motion_step scenario_registry 998 900 5 0 =
      some ⟨1, ⟨1000, 200, 500, 500, 1⟩, 1001, 650⟩ := by
  decide!

/-- C6: when both delta components are below the motion threshold in magnitude
(the `double` constant `0.1`, which is not below the decimal `0.1`), the engine
issues no warp, whatever the registry and the pointer position. -/
theorem no_warp_below_motion_threshold (monitors : List Monitor) (root_x root_y : Int)
    (dx dy : ℚ) (hdx : |dx| < MOTION_THRESHOLD) (hdy : |dy| < MOTION_THRESHOLD) :
    motion_step monitors root_x root_y dx dy = none := by
  apply motion_step_none_of_no_edge
  intro ci curr _
  rw [abs_lt] at hdx hdy
  unfold edge_direction
  rw [if_neg (fun h => absurd h.1 (not_lt.mpr (le_of_lt hdx.1))),
    if_neg (fun h => absurd h.1 (not_lt.mpr (le_of_lt hdx.2))),
    if_neg (fun h => absurd h.1 (not_lt.mpr (le_of_lt hdy.1))),
    if_neg (fun h => absurd h.1 (not_lt.mpr (le_of_lt hdy.2)))]

/-- C6, instance: the pointer on the right edge pixel `(999, 500)` of `A` with the
delta `(0.05, 0)` produces no warp, while `(0.05, 0)` is below the decimal `0.1`. -/
theorem no_warp_below_motion_threshold_witness :
    get_current_monitor scenario_registry 999 500 = some (0, ⟨0, 0, 1000, 1000, 0⟩) ∧
    |(1 / 20 : ℚ)| < 1 / 10 ∧
    motion_step scenario_registry 999 500 (1 / 20) 0 = none :=
  ⟨by decide, by norm_num [abs_lt],
    no_warp_below_motion_threshold scenario_registry 999 500 (1 / 20) 0
      (by unfold MOTION_THRESHOLD; norm_num [abs_lt])
      (by unfold MOTION_THRESHOLD; norm_num [abs_lt])⟩

/-- C7, as stated, fails: at `(2, 0)` the pointer is within `EDGE_THRESHOLD` of
the left edge of the first entry of `narrow_registry` and the delta `(+5, 0)`
points away from that edge, yet the engine warps to the second entry, because
the pointer is also within `EDGE_THRESHOLD` of the right edge. -/
theorem inward_motion_counterexample :
    get_current_monitor narrow_registry 2 0 = some (0, ⟨0, 0, 4, 4, 0⟩) ∧
    near_edge .Left ⟨0, 0, 4, 4, 0⟩ 2 0 ∧ inward .Left 5 0 ∧
    motion_step narrow_registry 2 0 5 0 = some ⟨1, ⟨4, 0, 4, 4, 1⟩, 5, 0⟩ :=
  ⟨by decide, by decide, by norm_num [inward], by decide!⟩

/-- C7 (amended): if the pointer is within `EDGE_THRESHOLD` pixels of an edge of
its current rectangle, the delta points inward with respect to that edge (its
component on the axis of the edge points away from the edge, the other
component is zero) and the pointer is not within `EDGE_THRESHOLD` pixels of the
opposite edge, then the engine issues no warp. -/
theorem no_warp_on_inward_motion (monitors : List Monitor) (root_x root_y : Int)
    (dx dy : ℚ) (ci : Nat) (curr : Monitor) (e : Direction)
    (hloc : get_current_monitor monitors root_x root_y = some (ci, curr))
    (_hnear : near_edge e curr root_x root_y) (hin : inward e dx dy)
    (hfar : ¬ near_edge e.opposite curr root_x root_y) :
    motion_step monitors root_x root_y dx dy = none := by
  apply motion_step_none_of_no_edge
  intro ci2 curr2 hc2
  rw [hloc] at hc2
  simp only [Option.some.injEq, Prod.mk.injEq] at hc2
  obtain ⟨_, rfl⟩ := hc2
  have hT := motion_threshold_pos
  unfold edge_direction
  cases e
  · obtain ⟨h1, h2⟩ := hin
    rw [if_neg (fun h => by linarith [h.1]), if_neg (fun h => hfar h.2),
      if_neg (fun h => by linarith [h.1]), if_neg (fun h => by linarith [h.1])]
  · obtain ⟨h1, h2⟩ := hin
    rw [if_neg (fun h => hfar h.2), if_neg (fun h => by linarith [h.1]),
      if_neg (fun h => by linarith [h.1]), if_neg (fun h => by linarith [h.1])]
  · obtain ⟨h1, h2⟩ := hin
    rw [if_neg (fun h => by linarith [h.1]), if_neg (fun h => by linarith [h.1]),
      if_neg (fun h => by linarith [h.1]), if_neg (fun h => hfar h.2)]
  · obtain ⟨h1, h2⟩ := hin
    rw [if_neg (fun h => by linarith [h.1]), if_neg (fun h => by linarith [h.1]),
      if_neg (fun h => hfar h.2), if_neg (fun h => by linarith [h.1])]

/-- C7 (amended), instance: at `(1001, 400)`, one pixel inside the left edge of
`B`, the delta `(+5, 0)` produces no warp, although `A` lies to the left. -/
theorem no_warp_on_inward_motion_witness :
    near_edge .Left ⟨1000, 200, 500, 500, 1⟩ 1001 400 ∧
    select scenario_registry 1 ⟨1000, 200, 500, 500, 1⟩ .Left =
      some (0, ⟨0, 0, 1000, 1000, 0⟩) ∧
    motion_step scenario_registry 1001 400 5 0 = none :=
  ⟨by decide, by decide,
    no_warp_on_inward_motion scenario_registry 1001 400 5 0 1 ⟨1000, 200, 500, 500, 1⟩
      .Left (by decide) (by decide) (by norm_num [inward]) (by decide)⟩

/-- C8: in a registry with exactly one entry the selector returns none for each
of the four directions, and the engine issues no warp for any pointer position
and any motion delta. -/
theorem single_monitor_no_warp (m : Monitor) :
    (∀ d : Direction, select [m] 0 m d = none) ∧
    (∀ (root_x root_y : Int) (dx dy : ℚ), motion_step [m] root_x root_y dx dy = none) := by
  have hsel : ∀ (c : Monitor) (a b : Int), get_target_monitor [m] 0 c a b = none := by
    intro c a b
    simp [get_target_monitor, target_scan]
  refine ⟨fun d => hsel m _ _, ?_⟩
  intro root_x root_y dx dy
  cases hs : motion_step [m] root_x root_y dx dy with
  | none => rfl
  | some w =>
    obtain ⟨_, ci, curr, d, ti, target, hc, _, ht, _⟩ :=
      (motion_step_some [m] root_x root_y dx dy w).mp hs
    have hci : ci = 0 := by
      obtain ⟨hk, _⟩ := (get_current_monitor_some [m] root_x root_y ci curr).mp hc
      cases ci with
      | zero => rfl
      | succ n => simp at hk
    subst hci
    rw [hsel] at ht
    exact absurd ht (by simp)

/-- C9, as stated, fails.  In `squat_registry` (all extents at least 4) the
pointer at `(999, 999)` pushed right lands on the second entry at `(1001, 3)`
and pushed left from there returns to the first entry at `y = 750`, 249 pixels
from where it left.  In `twin_registry` (equal extents) the pointer at `(99, 2)`
lands at `(101, 1)` and returns at `y = 0`, two pixels from where it left. -/
theorem round_trip_counterexample :
    (motion_step squat_registry 999 999 5 0 = some ⟨1, ⟨1000, 0, 500, 4, 1⟩, 1001, 3⟩ ∧
      motion_step squat_registry 1001 3 (-5) 0 = some ⟨0, ⟨0, 0, 1000, 1000, 0⟩, 998, 750⟩ ∧
      ¬ |(750 : Int) - 999| ≤ 1) ∧
    (motion_step twin_registry 99 2 5 0 = some ⟨1, ⟨100, 0, 100, 49, 1⟩, 101, 1⟩ ∧
      motion_step twin_registry 101 1 (-5) 0 = some ⟨0, ⟨0, 0, 100, 49, 0⟩, 98, 0⟩ ∧
      ¬ |(0 : Int) - 2| ≤ 1) :=
  ⟨⟨by decide!, by decide!, by decide⟩, ⟨by decide!, by decide!, by decide⟩⟩

/-- C9 (amended): let the pointer, located on `A`, be warped across in direction
`d` to `B`, be located on `B` at the landing position, and be warped back to `A`
by a crossing in the opposite direction.  If the extent of `B` on the
perpendicular axis is at least that of `A` (and their product is at most
`2^50`), the perpendicular coordinate of the final position is not above the
one the pointer started from and at most two pixels below it; it is at most one
pixel below when the extent of `B` is strictly larger. -/
theorem round_trip_within_two (monitors : List Monitor) (x y : Int) (dx dy dx2 dy2 : ℚ)
    (a : Nat) (A : Monitor) (d : Direction) (w1 w2 : Warp)
    (hloc : get_current_monitor monitors x y = some (a, A))
    (hdir : edge_direction A x y dx dy = some d)
    (hstep : motion_step monitors x y dx dy = some w1)
    (hloc2 : get_current_monitor monitors w1.new_x w1.new_y = some (w1.target, w1.monitor))
    (hdir2 : edge_direction w1.monitor w1.new_x w1.new_y dx2 dy2 = some d.opposite)
    (hstep2 : motion_step monitors w1.new_x w1.new_y dx2 dy2 = some w2)
    (hback : w2.target = a)
    (hle : d.perp_extent A ≤ d.perp_extent w1.monitor)
    (hsize : d.perp_extent A * d.perp_extent w1.monitor ≤ 2 ^ 50) :
    d.perp_coord w2.new_x w2.new_y ≤ d.perp_coord x y ∧
    d.perp_coord x y - 2 ≤ d.perp_coord w2.new_x w2.new_y ∧
    (d.perp_extent A < d.perp_extent w1.monitor →
      d.perp_coord x y - 1 ≤ d.perp_coord w2.new_x w2.new_y) := by
  obtain ⟨_, ci, curr, d1, ti, B, hc, he, _, hw1⟩ :=
    (motion_step_some monitors x y dx dy w1).mp hstep
  rw [hloc] at hc
  simp only [Option.some.injEq, Prod.mk.injEq] at hc
  obtain ⟨rfl, rfl⟩ := hc
  rw [hdir] at he
  simp only [Option.some.injEq] at he
  subst he
  obtain ⟨_, cj, curr2, d2, tj, T, hc2, he2, ht2, hw2⟩ :=
    (motion_step_some monitors w1.new_x w1.new_y dx2 dy2 w2).mp hstep2
  rw [hloc2] at hc2
  simp only [Option.some.injEq, Prod.mk.injEq] at hc2
  obtain ⟨rfl, rfl⟩ := hc2
  rw [hdir2] at he2
  simp only [Option.some.injEq] at he2
  subst he2
  obtain ⟨hA, hAin, _⟩ := (get_current_monitor_some monitors x y a A).mp hloc
  obtain ⟨_, hT, _⟩ := get_target_monitor_some monitors _ _ _ _ tj T ht2
  have htj : tj = a := by rw [← hback, hw2]; rfl
  subst htj
  rw [hA] at hT
  simp only [Option.some.injEq] at hT
  subst hT
  obtain ⟨hx0, hx1, hy0, hy1⟩ := hAin
  have hB : w1.monitor = B := by rw [hw1]; rfl
  rw [hB] at hle hsize hw2 ⊢
  have hx : w1.new_x = (clamp_warp ti B (remap d A B x y).1 (remap d A B x y).2).new_x := by
    rw [hw1]
  have hy : w1.new_y = (clamp_warp ti B (remap d A B x y).1 (remap d A B x y).2).new_y := by
    rw [hw1]
  rw [hx, hy] at hw2
  subst hw2
  clear hx hy hw1 hstep hstep2 hloc2 hdir2 hB hback
  cases d
  · obtain ⟨r1, r2, r3, r4, r5⟩ := remap_round_trip y A.y A.h B.y B.h hy0 hy1 hle hsize
    simp only [Direction.perp_extent, Direction.perp_coord, Direction.opposite, clamp_warp,
      remap] at hle hsize r5 ⊢
    have hk : ¬ (B.y + scale (ratio y A.y A.h) B.h ≥ B.y + B.h) := by omega
    rw [if_neg hk]
    split_ifs <;> omega
  · obtain ⟨r1, r2, r3, r4, r5⟩ := remap_round_trip y A.y A.h B.y B.h hy0 hy1 hle hsize
    simp only [Direction.perp_extent, Direction.perp_coord, Direction.opposite, clamp_warp,
      remap] at hle hsize r5 ⊢
    have hk : ¬ (B.y + scale (ratio y A.y A.h) B.h ≥ B.y + B.h) := by omega
    rw [if_neg hk]
    split_ifs <;> omega
  · obtain ⟨r1, r2, r3, r4, r5⟩ := remap_round_trip x A.x A.w B.x B.w hx0 hx1 hle hsize
    simp only [Direction.perp_extent, Direction.perp_coord, Direction.opposite, clamp_warp,
      remap] at hle hsize r5 ⊢
    have hk : ¬ (B.x + scale (ratio x A.x A.w) B.w ≥ B.x + B.w) := by omega
    rw [if_neg hk]
    split_ifs <;> omega
  · obtain ⟨r1, r2, r3, r4, r5⟩ := remap_round_trip x A.x A.w B.x B.w hx0 hx1 hle hsize
    simp only [Direction.perp_extent, Direction.perp_coord, Direction.opposite, clamp_warp,
      remap] at hle hsize r5 ⊢
    have hk : ¬ (B.x + scale (ratio x A.x A.w) B.w ≥ B.x + B.w) := by omega
    rw [if_neg hk]
    split_ifs <;> omega

/-- C9 (amended), instance: in the two-monitor scenario the pointer at
`(1001, 333)` on `B` (500 high) pushed left lands on `A` (1000 high) at
`(998, 266)` and pushed right from there returns to `B` at `y = 333`. -/
theorem round_trip_within_two_witness :
    motion_step scenario_registry 1001 333 (-5) 0 =
        some ⟨0, ⟨0, 0, 1000, 1000, 0⟩, 998, 266⟩ ∧
    motion_step scenario_registry 998 266 5 0 =
        some ⟨1, ⟨1000, 200, 500, 500, 1⟩, 1001, 333⟩ ∧
    ((333 : Int) ≤ 333 ∧ (333 : Int) - 2 ≤ 333 ∧
      ((500 : Int) < 1000 → (333 : Int) - 1 ≤ 333)) :=
  ⟨by decide!, by decide!,
    round_trip_within_two scenario_registry 1001 333 (-5) 0 5 0 1
      ⟨1000, 200, 500, 500, 1⟩ .Left ⟨0, ⟨0, 0, 1000, 1000, 0⟩, 998, 266⟩
      ⟨1, ⟨1000, 200, 500, 500, 1⟩, 1001, 333⟩
      (by decide) (by decide!) (by decide!) (by decide) (by decide!) (by decide!) rfl
      (by decide) (by norm_num [Direction.perp_extent])⟩

/-- C10: the selector returns none if and only if no registry entry other than
the current one qualifies for the direction; so whenever at least one candidate
qualifies it returns some entry.  (The first qualifying candidate always
replaces the initial `best`, since the 32-bit `dist` never equals the initial
`best_dist`, `2147483647`.) -/
theorem select_none_iff_no_candidate (monitors : List Monitor) (cur : Nat)
    (current : Monitor) (d : Direction) :
    (select monitors cur current d = none ↔
      ∀ k m, monitors[k]? = some m → k ≠ cur → ¬ d.qualifies current m) ∧
    ((∃ k m, monitors[k]? = some m ∧ k ≠ cur ∧ d.qualifies current m) →
      ∃ j r, select monitors cur current d = some (j, r)) := by
  have hnone : select monitors cur current d = none ↔
      ∀ k m, monitors[k]? = some m → k ≠ cur → ¬ d.qualifies current m := by
    unfold select
    rw [get_target_monitor_none]
    constructor
    · intro h k m hk hne hq
      have := h k m hk hne
      rw [(is_candidate_args d current m).mpr hq] at this
      exact absurd this (by simp)
    · intro h k m hk hne
      by_contra hc
      exact h k m hk hne ((is_candidate_args d current m).mp (by simpa using hc))
  refine ⟨hnone, ?_⟩
  rintro ⟨k, m, hk, hne, hq⟩
  cases hsel : select monitors cur current d with
  | none => exact absurd hq (hnone.mp hsel k m hk hne)
  | some p => exact ⟨p.1, p.2, rfl⟩

/-- C11: when the display-configuration query fails (no screen resources),
`update_monitors` leaves the globals as they were: the rectangle sequence and
`monitor_count` are unchanged, and locate and select answer as before. -/
theorem update_monitors_failure_keeps_registry (st : State) :
    update_monitors st none = st ∧
    (update_monitors st none).monitors = st.monitors ∧
    (update_monitors st none).monitor_count = st.monitor_count ∧
    (∀ x y, get_current_monitor (update_monitors st none).entries x y =
      get_current_monitor st.entries x y) ∧
    (∀ cur current d, select (update_monitors st none).entries cur current d =
      select st.entries cur current d) :=
  ⟨rfl, rfl, rfl, fun _ _ => rfl, fun _ _ _ => rfl⟩

/-- C13: with the same per-output answers in both loops, a successful rebuild
produces exactly the outputs that are connected and have an active controller,
in enumeration order, with x, y, width and height copied; the entry at position
`i` carries index `i`; and `monitor_count` is the number of entries written. -/
theorem rebuild_retains_connected_active (st : State) (outputs : List Output) :
    (update_monitors st (some outputs)).monitors.map (fun m => (m.x, m.y, m.w, m.h)) =
      (outputs.filter Output.retained).map
        (fun o => (o.x, o.y, (o.width : Int), (o.height : Int))) ∧
    (∀ (i : Nat) (m : Monitor),
      (update_monitors st (some outputs)).monitors[i]? = some m → m.index = (i : Int)) ∧
    (update_monitors st (some outputs)).monitor_count =
      (update_monitors st (some outputs)).monitors.length ∧
    (update_monitors st (some outputs)).entries =
      (update_monitors st (some outputs)).monitors := by
  refine ⟨fill_pass_geometry outputs 0, ?_, ?_, ?_⟩
  · intro i m h
    have := fill_pass_index outputs 0 i m h
    rw [this]
    congr 1
    omega
  · show count_pass outputs 0 = (fill_pass outputs 0).length
    rw [count_pass_eq outputs 0 0]
    omega
  · rw [update_monitors_entries]
    rfl

/-- C13, instance: of the four outputs of `sample_outputs` the first and the
last are connected and active; the rebuild keeps these two, in order, with
indices 0 and 1, and sets `monitor_count` to 2. -/
theorem rebuild_retains_connected_active_witness :
    update_monitors ⟨[], 0⟩ (some sample_outputs) =
        ⟨[⟨0, 0, 1920, 1080, 0⟩, ⟨1920, 0, 1280, 1024, 1⟩], 2⟩ ∧
    (update_monitors ⟨[], 0⟩ (some sample_outputs)).monitor_count =
      (update_monitors ⟨[], 0⟩ (some sample_outputs)).monitors.length :=
  ⟨by decide, (rebuild_retains_connected_active ⟨[], 0⟩ sample_outputs).2.2.1⟩

/-- C14: while the registry is empty, locate returns none for every point and
the engine issues no warp for any pointer position and motion delta; and a
successful rebuild in which no output is connected and active leaves the
registry empty. -/
theorem empty_registry_no_warp (st : State) (hempty : st.entries = []) :
    (∀ x y, get_current_monitor st.entries x y = none) ∧
    (∀ x y dx dy, motion_step st.entries x y dx dy = none) ∧
    (∀ (st0 : State) (outputs : List Output), (∀ o ∈ outputs, o.retained = false) →
      (update_monitors st0 (some outputs)).entries = []) := by
  rw [hempty]
  refine ⟨fun _ _ => rfl, ?_, ?_⟩
  · intro x y dx dy
    unfold motion_step
    split_ifs <;> rfl
  · intro st0 outputs h
    rw [update_monitors_entries]
    have hg := fill_pass_geometry outputs 0
    have hf : outputs.filter Output.retained = [] := by
      rw [List.filter_eq_nil_iff]
      intro o ho
      rw [h o ho]
      simp
    rw [hf] at hg
    simpa using hg

/-- C14, instance: rebuilding the two-monitor scenario from an output list whose
only output is disconnected empties the registry, and the push that warped
before, at `(998, 900)` with delta `(+5, 0)`, produces no warp. -/
theorem empty_registry_no_warp_witness :
    (update_monitors ⟨scenario_registry, 2⟩ (some [⟨0, 1, 0, 0, 0, 0⟩])).entries = [] ∧
    get_current_monitor
      (update_monitors ⟨scenario_registry, 2⟩ (some [⟨0, 1, 0, 0, 0, 0⟩])).entries
      998 900 = none ∧
    motion_step
      (update_monitors ⟨scenario_registry, 2⟩ (some [⟨0, 1, 0, 0, 0, 0⟩])).entries
      998 900 5 0 = none :=
  ⟨by decide,
    (empty_registry_no_warp
      (update_monitors ⟨scenario_registry, 2⟩ (some [⟨0, 1, 0, 0, 0, 0⟩])) (by decide)).1
      998 900,
    (empty_registry_no_warp
      (update_monitors ⟨scenario_registry, 2⟩ (some [⟨0, 1, 0, 0, 0, 0⟩])) (by decide)).2.1
      998 900 5 0⟩

/-- C15, as stated, fails: pushed right at `(999, 200)` in `squat_registry` the
pointer has `y_ratio = 0.2` and the target height is 4; the coordinate written
before the clamp is `target.y + 0`, while rounding `0.8` to the nearest integer
gives `target.y + 1`. -/
theorem perpendicular_rounding_counterexample :
    motion_step squat_registry 999 200 5 0 = some ⟨1, ⟨1000, 0, 500, 4, 1⟩, 1001, 0⟩ ∧
    (remap .Right ⟨0, 0, 1000, 1000, 0⟩ ⟨1000, 0, 500, 4, 1⟩ 999 200).2 = 0 ∧
    (⟨1000, 0, 500, 4, 1⟩ : Monitor).y +
      round_nearest (((200 - 0 : Int) : ℚ) / ((1000 : Int) : ℚ) * ((4 : Int) : ℚ)) = 1 ∧
    (⟨1000, 0, 500, 4, 1⟩ : Monitor).y +
      round_nearest (f64_round (ratio 200 0 1000 * ((4 : Int) : ℚ))) = 1 ∧
    (remap .Right ⟨0, 0, 1000, 1000, 0⟩ ⟨1000, 0, 500, 4, 1⟩ 999 200).2 ≠
      (⟨1000, 0, 500, 4, 1⟩ : Monitor).y +
        round_nearest (f64_round (ratio 200 0 1000 * ((4 : Int) : ℚ))) := by
  refine ⟨by decide!, by decide!, ?_, by decide!, by decide!⟩
  norm_num [round_nearest]

/-- C15 (amended): for every crossing that warps, onto a target of positive
perpendicular extent (the product of the two perpendicular extents being at
most `2^50`), the perpendicular coordinate written before the clamp is the
target origin plus `k`, where `k` is the binary64 product of the ratio and the
target extent with its fraction dropped, not rounded to nearest: `k` is the
floor of the exact quotient `(pos - curr origin) * target extent / curr extent`,
or one less when that quotient is an integer. -/
theorem perpendicular_coordinate_truncates (monitors : List Monitor) (x y : Int)
    (dx dy : ℚ) (ci : Nat) (curr : Monitor) (d : Direction) (w : Warp)
    (hloc : get_current_monitor monitors x y = some (ci, curr))
    (hdir : edge_direction curr x y dx dy = some d)
    (hstep : motion_step monitors x y dx dy = some w)
    (hpos : 0 < d.perp_extent w.monitor)
    (hsize : d.perp_extent curr * d.perp_extent w.monitor ≤ 2 ^ 50) :
    w = clamp_warp w.target w.monitor (remap d curr w.monitor x y).1
          (remap d curr w.monitor x y).2 ∧
    d.perp_coord (remap d curr w.monitor x y).1 (remap d curr w.monitor x y).2 =
      d.perp_origin w.monitor +
        ⌊f64_round (ratio (d.perp_coord x y) (d.perp_origin curr) (d.perp_extent curr) *
          ((d.perp_extent w.monitor : Int) : ℚ))⌋ ∧
    (d.perp_coord (remap d curr w.monitor x y).1 (remap d curr w.monitor x y).2 -
        d.perp_origin w.monitor) * d.perp_extent curr ≤
      (d.perp_coord x y - d.perp_origin curr) * d.perp_extent w.monitor ∧
    (d.perp_coord x y - d.perp_origin curr) * d.perp_extent w.monitor ≤
      (d.perp_coord (remap d curr w.monitor x y).1 (remap d curr w.monitor x y).2 -
        d.perp_origin w.monitor + 1) * d.perp_extent curr := by
  obtain ⟨_, hw⟩ := motion_step_warp_of_direction monitors x y dx dy ci curr d w hloc hdir hstep
  obtain ⟨_, hin, _⟩ := (get_current_monitor_some monitors x y ci curr).mp hloc
  obtain ⟨b0, b1, b2⟩ := perp_offset_bracket d curr w.monitor x y hin hpos hsize
  rw [remap_perp]
  refine ⟨hw, by rw [b0], ?_, ?_⟩
  · rw [add_sub_cancel_left]; exact b1
  · rw [add_sub_cancel_left]; exact b2

/-- C15 (amended), instance: in the two-monitor scenario the crossing at
`(998, 900)` writes `y = 200 + 450` before the clamp, and
`450 * 1000 ≤ 900 * 500 ≤ 451 * 1000`. -/
theorem perpendicular_coordinate_truncates_witness :
    motion_step scenario_registry 998 900 5 0 =
        some ⟨1, ⟨1000, 200, 500, 500, 1⟩, 1001, 650⟩ ∧
    (remap .Right ⟨0, 0, 1000, 1000, 0⟩ ⟨1000, 200, 500, 500, 1⟩ 998 900).2 = 650 ∧
    (((remap .Right ⟨0, 0, 1000, 1000, 0⟩ ⟨1000, 200, 500, 500, 1⟩ 998 900).2 - 200) * 1000 ≤
        (900 - 0) * 500 ∧
      (900 - 0) * 500 ≤
        ((remap .Right ⟨0, 0, 1000, 1000, 0⟩ ⟨1000, 200, 500, 500, 1⟩ 998 900).2 - 200 + 1) *
          1000) :=
  ⟨by decide!, by decide!,
    (perpendicular_coordinate_truncates scenario_registry 998 900 5 0 0
      ⟨0, 0, 1000, 1000, 0⟩ .Right ⟨1, ⟨1000, 200, 500, 500, 1⟩, 1001, 650⟩
      (by decide) (by decide!) (by decide!) (by decide)
      (by norm_num [Direction.perp_extent])).2.2⟩

/-- C16: when the branch condition of a direction holds and that of no
direction earlier in the order Left, Right, Up, Down holds, the engine acts on
that direction alone, whatever holds for the later directions: without a
neighbour in that direction the sample produces no warp, and with a neighbour
the warp goes to that neighbour. -/
theorem edge_priority (monitors : List Monitor) (x y : Int) (dx dy : ℚ) (ci : Nat)
    (curr : Monitor) (d : Direction)
    (hloc : get_current_monitor monitors x y = some (ci, curr))
    (htrig : trigger d curr x y dx dy)
    (hfirst : ∀ e : Direction, e.rank < d.rank → ¬ trigger e curr x y dx dy) :
    (select monitors ci curr d = none → motion_step monitors x y dx dy = none) ∧
    (∀ ti t, select monitors ci curr d = some (ti, t) →
      motion_step monitors x y dx dy =
        some (clamp_warp ti t (remap d curr t x y).1 (remap d curr t x y).2)) := by
  have hdir := (edge_direction_some curr x y dx dy d).mpr ⟨htrig, hfirst⟩
  have hstep := motion_step_of_direction monitors x y dx dy ci curr d hloc hdir
  unfold select
  constructor
  · intro h
    rw [hstep, h]
  · intro ti t h
    rw [hstep, h]

/-- C16, instance: at `(1, 101)` on entry 0 of `stacked_registry` with the delta
`(-5, -5)` the conditions of Left and of Up both hold; Up has a neighbour, Left
has none, and the sample produces no warp. -/
theorem edge_priority_witness :
    trigger .Left ⟨0, 100, 100, 100, 0⟩ 1 101 (-5) (-5) ∧
    trigger .Up ⟨0, 100, 100, 100, 0⟩ 1 101 (-5) (-5) ∧
    select stacked_registry 0 ⟨0, 100, 100, 100, 0⟩ .Up =
      some (1, ⟨0, 0, 100, 100, 1⟩) ∧
    select stacked_registry 0 ⟨0, 100, 100, 100, 0⟩ .Left = none ∧
    motion_step stacked_registry 1 101 (-5) (-5) = none :=
  ⟨by decide!, by decide!, by decide, by decide,
    (edge_priority stacked_registry 1 101 (-5) (-5) 0 ⟨0, 100, 100, 100, 0⟩ .Left
      (by decide) (by decide!)
      (fun e he => by cases e <;> simp [Direction.rank] at he)).1 (by decide)⟩

/-- C17: a rectangle on which the pointer is located has positive width and
height, so neither ratio divides by zero; the exact fractional positions lie
in `[0, 1)`; and so do the computed binary64 ratios (for extents up to
`2^50`). -/
theorem located_ratio_in_unit_interval (monitors : List Monitor) (x y : Int) (i : Nat)
    (r : Monitor) (hloc : get_current_monitor monitors x y = some (i, r)) :
    0 < r.w ∧ 0 < r.h ∧
    (0 ≤ ((x - r.x : Int) : ℚ) / ((r.w : Int) : ℚ) ∧
      ((x - r.x : Int) : ℚ) / ((r.w : Int) : ℚ) < 1) ∧
    (0 ≤ ((y - r.y : Int) : ℚ) / ((r.h : Int) : ℚ) ∧
      ((y - r.y : Int) : ℚ) / ((r.h : Int) : ℚ) < 1) ∧
    0 ≤ ratio x r.x r.w ∧ 0 ≤ ratio y r.y r.h ∧
    (r.w ≤ 2 ^ 50 → ratio x r.x r.w < 1) ∧ (r.h ≤ 2 ^ 50 → ratio y r.y r.h < 1) := by
  obtain ⟨_, hin, _⟩ := (get_current_monitor_some monitors x y i r).mp hloc
  obtain ⟨hx0, hx1, hy0, hy1⟩ := hin
  have hw : 0 < r.w := by omega
  have hh : 0 < r.h := by omega
  have hW : (0 : ℚ) < ((r.w : Int) : ℚ) := by exact_mod_cast hw
  have hH : (0 : ℚ) < ((r.h : Int) : ℚ) := by exact_mod_cast hh
  refine ⟨hw, hh, ⟨?_, ?_⟩, ⟨?_, ?_⟩, ratio_nonneg _ _ _ hx0 (le_of_lt hw),
    ratio_nonneg _ _ _ hy0 (le_of_lt hh), fun hb => ratio_lt_one x r.x r.w hx0 hx1 hb,
    fun hb => ratio_lt_one y r.y r.h hy0 hy1 hb⟩
  · apply div_nonneg _ (le_of_lt hW)
    exact_mod_cast sub_nonneg.mpr hx0
  · rw [div_lt_one hW]
    have : x - r.x < r.w := by omega
    exact_mod_cast this
  · apply div_nonneg _ (le_of_lt hH)
    exact_mod_cast sub_nonneg.mpr hy0
  · rw [div_lt_one hH]
    have : y - r.y < r.h := by omega
    exact_mod_cast this

/-- C17, instance: the pointer at `(998, 900)` is located on `A`, 1000 wide and
high, at the fractions `998/1000` and `900/1000`. -/
theorem located_ratio_in_unit_interval_witness :
    get_current_monitor scenario_registry 998 900 = some (0, ⟨0, 0, 1000, 1000, 0⟩) ∧
    ((0 : Int) < 1000 ∧
      (0 ≤ ((998 - 0 : Int) : ℚ) / ((1000 : Int) : ℚ) ∧
        ((998 - 0 : Int) : ℚ) / ((1000 : Int) : ℚ) < 1)) :=
  ⟨by decide,
    (located_ratio_in_unit_interval scenario_registry 998 900 0 ⟨0, 0, 1000, 1000, 0⟩
      (by decide)).1,
    (located_ratio_in_unit_interval scenario_registry 998 900 0 ⟨0, 0, 1000, 1000, 0⟩
      (by decide)).2.2.1⟩

/-- C18: for two rectangles inside the X11 coordinate range the squared centre
distance is at most `2 * 32767^2 = 2147352578`, so the 32-bit `dist` equals the
exact value and is strictly below the initial `best_dist`, `2147483647`; hence a
qualifying candidate met while `best` is still `NULL` replaces it. -/
theorem x11_range_distance_fits (current m : Monitor) (hc : in_x11_range current)
    (hm : in_x11_range m) :
    center_dist_sq current m ≤ 2147352578 ∧
    center_dist current m = center_dist_sq current m ∧
    center_dist current m < 2147483647 ∧
    (∀ (cur i : Nat) (dx dy : Int) (rest : List Monitor), i ≠ cur →
      is_candidate current m dx dy = true →
      target_scan cur current dx dy (m :: rest) i none 2147483647 =
        target_scan cur current dx dy rest (i + 1) (some (i, m)) (center_dist current m)) := by
  obtain ⟨c1, c2, c3, c4, c5, c6⟩ := hc
  obtain ⟨m1, m2, m3, m4, m5, m6⟩ := hm
  have hsq : center_dist_sq current m ≤ 2147352578 := by
    unfold center_dist_sq
    dsimp only
    rw [Int.tdiv_eq_ediv (le_of_lt c3) (by norm_num), Int.tdiv_eq_ediv (le_of_lt c4) (by norm_num),
      Int.tdiv_eq_ediv (le_of_lt m3) (by norm_num), Int.tdiv_eq_ediv (le_of_lt m4) (by norm_num)]
    have hx := sq_le_of_abs_le (current.x + current.w / 2 - (m.x + m.w / 2)) 32767
      (by omega) (by omega)
    have hy := sq_le_of_abs_le (current.y + current.h / 2 - (m.y + m.h / 2)) 32767
      (by omega) (by omega)
    generalize (current.x + current.w / 2 - (m.x + m.w / 2)) *
      (current.x + current.w / 2 - (m.x + m.w / 2)) = s at hx ⊢
    generalize (current.y + current.h / 2 - (m.y + m.h / 2)) *
      (current.y + current.h / 2 - (m.y + m.h / 2)) = t at hy ⊢
    omega
  have heq := center_dist_eq_sq current m (center_dist_sq_nonneg current m) (by omega)
  have hlt : center_dist current m < 2147483647 := by rw [heq]; omega
  refine ⟨hsq, heq, hlt, ?_⟩
  intro cur i dx dy rest hne hcand
  rw [target_scan, if_neg hne, if_pos hcand, if_pos hlt]

/-- C18, instance: `A` and `B` of the two-monitor scenario lie in the X11 range;
their squared centre distance is `565000`, in exact and in 32-bit arithmetic. -/
theorem x11_range_distance_fits_witness :
    in_x11_range ⟨0, 0, 1000, 1000, 0⟩ ∧ in_x11_range ⟨1000, 200, 500, 500, 1⟩ ∧
    center_dist_sq ⟨0, 0, 1000, 1000, 0⟩ ⟨1000, 200, 500, 500, 1⟩ = 565000 ∧
    center_dist ⟨0, 0, 1000, 1000, 0⟩ ⟨1000, 200, 500, 500, 1⟩ =
      center_dist_sq ⟨0, 0, 1000, 1000, 0⟩ ⟨1000, 200, 500, 500, 1⟩ :=
  ⟨by decide, by decide, by decide,
    (x11_range_distance_fits ⟨0, 0, 1000, 1000, 0⟩ ⟨1000, 200, 500, 500, 1⟩
      (by decide) (by decide)).2.1⟩

/-- C19: in a registry of pairwise non-overlapping rectangles, a warp to a
target at least two pixels wide and high puts the pointer in the target, and
locate at the warp coordinate returns the target. -/
theorem warp_lands_on_target (monitors : List Monitor) (x y : Int) (dx dy : ℚ) (w : Warp)
    (hstep : motion_step monitors x y dx dy = some w) (hno : non_overlapping monitors)
    (hw : 2 ≤ w.monitor.w) (hh : 2 ≤ w.monitor.h) :
    w.monitor.contains w.new_x w.new_y ∧
    get_current_monitor monitors w.new_x w.new_y = some (w.target, w.monitor) := by
  obtain ⟨_, ci, curr, d, ti, target, hc, _, ht, hwarp⟩ :=
    (motion_step_some monitors x y dx dy w).mp hstep
  obtain ⟨_, hin, _⟩ := (get_current_monitor_some monitors x y ci curr).mp hc
  obtain ⟨_, hti, _⟩ := get_target_monitor_some monitors ci curr _ _ ti target ht
  subst hwarp
  have hcont := clamp_remap_inside d ti curr target x y hin hw hh
  refine ⟨hcont, ?_⟩
  rw [get_current_monitor_some]
  refine ⟨hti, hcont, ?_⟩
  intro j m hlt hj hm
  exact hno j ti m target hlt hj hti _ _ ⟨hm, hcont⟩

/-- C19, instance: the rectangles of the two-monitor scenario do not overlap,
and the warp coordinate `(1001, 650)` is located on `B`. -/
theorem warp_lands_on_target_witness :
    non_overlapping scenario_registry ∧
    motion_step scenario_registry 998 900 5 0 =
        some ⟨1, ⟨1000, 200, 500, 500, 1⟩, 1001, 650⟩ ∧
    get_current_monitor scenario_registry 1001 650 = some (1, ⟨1000, 200, 500, 500, 1⟩) :=
  have hno : non_overlapping scenario_registry := by
    intro i j mi mj hlt hi hj px py hboth
    match i, j, hlt, hi, hj with
    | 0, 0, hlt, _, _ => exact absurd hlt (Nat.lt_irrefl 0)
    | 0, 1, _, hi, hj =>
      simp only [scenario_registry, List.getElem?_cons_zero, List.getElem?_cons_succ,
        Option.some.injEq] at hi hj
      subst hi; subst hj
      obtain ⟨⟨_, h2, _, _⟩, ⟨h5, _, _, _⟩⟩ := hboth
      simp only at h2 h5
      omega
    | 0, j + 2, _, _, hj => simp [scenario_registry] at hj
    | i + 1, 0, hlt, _, _ => exact absurd hlt (Nat.not_lt_zero _)
    | i + 1, 1, hlt, _, _ => omega
    | i + 1, j + 2, _, _, hj => simp [scenario_registry] at hj
  ⟨hno, by decide!,
    (warp_lands_on_target scenario_registry 998 900 5 0
      ⟨1, ⟨1000, 200, 500, 500, 1⟩, 1001, 650⟩ (by decide!) hno (by decide) (by decide)).2⟩

/-- C20, as stated, fails: in `twin_registry` both rectangles are 49 high; the
pointer at `(99, 1)`, offset 1 from the top of its rectangle, pushed right lands
at `y = 0`, offset 0 from the top of the target. -/
theorem equal_extent_identity_counterexample :
    get_current_monitor twin_registry 99 1 = some (0, ⟨0, 0, 100, 49, 0⟩) ∧
    motion_step twin_registry 99 1 5 0 = some ⟨1, ⟨100, 0, 100, 49, 1⟩, 101, 0⟩ ∧
    (⟨0, 0, 100, 49, 0⟩ : Monitor).h = (⟨100, 0, 100, 49, 1⟩ : Monitor).h ∧
    ¬ ((0 : Int) - (⟨100, 0, 100, 49, 1⟩ : Monitor).y = 1 - (⟨0, 0, 100, 49, 0⟩ : Monitor).y) :=
  ⟨by decide, by decide!, by decide, by decide⟩

/-- C20 (amended): for every crossing that warps between a current and a target
rectangle of equal extent on the perpendicular axis (at most `2^25`), the
offset of the warp coordinate from the target origin on that axis is the offset
of the pointer from the current origin, or one less. -/
theorem equal_extent_remap_within_one (monitors : List Monitor) (x y : Int) (dx dy : ℚ)
    (ci : Nat) (curr : Monitor) (d : Direction) (w : Warp)
    (hloc : get_current_monitor monitors x y = some (ci, curr))
    (hdir : edge_direction curr x y dx dy = some d)
    (hstep : motion_step monitors x y dx dy = some w)
    (heq : d.perp_extent curr = d.perp_extent w.monitor)
    (hsize : d.perp_extent curr ≤ 2 ^ 25) :
    d.perp_coord x y - d.perp_origin curr - 1 ≤
      d.perp_coord w.new_x w.new_y - d.perp_origin w.monitor ∧
    d.perp_coord w.new_x w.new_y - d.perp_origin w.monitor ≤
      d.perp_coord x y - d.perp_origin curr := by
  obtain ⟨_, hw⟩ := motion_step_warp_of_direction monitors x y dx dy ci curr d w hloc hdir hstep
  obtain ⟨_, hin, _⟩ := (get_current_monitor_some monitors x y ci curr).mp hloc
  obtain ⟨h0, h1⟩ := contains_perp d curr x y hin
  have hpos : 0 < d.perp_extent w.monitor := by omega
  have hsz : d.perp_extent curr * d.perp_extent w.monitor ≤ 2 ^ 50 := by
    rw [← heq]
    have : (0 : Int) ≤ d.perp_extent curr := by omega
    nlinarith
  obtain ⟨_, b1, b2⟩ := perp_offset_bracket d curr w.monitor x y hin hpos hsz
  have hperp : d.perp_coord w.new_x w.new_y =
      if d.perp_coord (remap d curr w.monitor x y).1 (remap d curr w.monitor x y).2 ≥
          d.perp_origin w.monitor + d.perp_extent w.monitor
      then d.perp_origin w.monitor + d.perp_extent w.monitor - 1
      else d.perp_coord (remap d curr w.monitor x y).1 (remap d curr w.monitor x y).2 := by
    conv_lhs => rw [hw]
    exact clamp_warp_perp d _ _ _ _
  have ha0 : 0 ≤ d.perp_coord x y - d.perp_origin curr := by omega
  have haH : d.perp_coord x y - d.perp_origin curr < d.perp_extent curr := by omega
  rw [hperp, remap_perp]
  rw [← heq] at b1 b2 hpos ⊢
  generalize scale (ratio (d.perp_coord x y) (d.perp_origin curr) (d.perp_extent curr))
    (d.perp_extent curr) = k at b1 b2 ⊢
  generalize d.perp_extent curr = H at b1 b2 hpos haH ⊢
  generalize d.perp_coord x y - d.perp_origin curr = a at b1 b2 ha0 haH ⊢
  have hka : k ≤ a := by
    by_contra hc
    have : a + 1 ≤ k := by omega
    nlinarith
  have hak : a ≤ k + 1 := by
    by_contra hc
    have : k + 2 ≤ a := by omega
    nlinarith
  split_ifs <;> omega


/-- C20 (amended), instance: in `twin_registry` the pointer at `(99, 2)`, offset
2, pushed right lands at `y = 1`, offset 1. -/
theorem equal_extent_remap_within_one_witness :
    motion_step twin_registry 99 2 5 0 = some ⟨1, ⟨100, 0, 100, 49, 1⟩, 101, 1⟩ ∧
    ((2 : Int) - 0 - 1 ≤ 1 - 0 ∧ (1 : Int) - 0 ≤ 2 - 0) :=
  ⟨by decide!,
    equal_extent_remap_within_one twin_registry 99 2 5 0 0 ⟨0, 0, 100, 49, 0⟩ .Right
      ⟨1, ⟨100, 0, 100, 49, 1⟩, 101, 1⟩ (by decide) (by decide!) (by decide!) (by decide)
      (by norm_num [Direction.perp_extent])⟩

end MouseFunnel
